import Mathlib

/-!
# Finite-difference theta-scheme pricer (`src/fdm.cpp`)

A shallow embedding of `dauphine::fdm` and of its base class `dauphine::fdm_interface`.

* `double` values are elements of an arbitrary field `K` (exact arithmetic); the
  definitions compute on `ℚ`.  Division follows the field convention `x / 0 = 0`.
* `std::vector<double>` is `List K`.  `v[i]` is undefined in C++ when `i` is not
  below `v.size()`; the embedding is total and returns `none` there.
* `for` loops are recursive functions on the number of iterations left.
-/

set_option linter.unusedSectionVars false

namespace dauphine

variable {K : Type} [Field K]

/-! ## Vector accesses -/

/-- Read `v[i]`; `none` when `i` is out of range. -/
def vget (v : List K) (i : Nat) : Option K := v[i]?

/-- Write `v[i] = x`; `none` when `i` is out of range. -/
def vset (v : List K) (i : Nat) (x : K) : Option (List K) :=
  if i < v.length then some (v.set i x) else none

/-! ## `fdm::thomas` (lines 182-212) -/

/-- Forward sweep, lines 196-200: `for (i = 1; i < n; i++)`.  The first argument is the
loop variable `i`, the second the number of iterations left, the third the pair
`(new_coeffs, new_d)`. -/
def forward_sweep (a b c d : List K) : Nat → Nat → List K × List K → Option (List K × List K)
  | _, 0, st => some st
  | i, k + 1, (new_coeffs, new_d) => do
    -- new_coeffs[i] = c[i] / (b[i]-a[i] * new_coeffs[i-1]);
    let ci ← vget c i
    let bi ← vget b i
    let ai ← vget a i
    let cp ← vget new_coeffs (i - 1)
    let new_coeffs ← vset new_coeffs i (ci / (bi - ai * cp))
    -- new_d[i] = (d[i]-a[i] * new_d[i-1]) / (b[i]-a[i] * new_coeffs[i-1]);
    let di ← vget d i
    let dp ← vget new_d (i - 1)
    let cp ← vget new_coeffs (i - 1)
    let new_d ← vset new_d i ((di - ai * dp) / (bi - ai * cp))
    forward_sweep a b c d (i + 1) k (new_coeffs, new_d)

/-- Back substitution, lines 206-209: `for (int i = n-2; i >= 0; i--)`.  The first
numeric argument is `i + 1`, which is also the number of iterations left. -/
def back_subst (new_coeffs new_d : List K) : Nat → List K → Option (List K)
  | 0, y => some y
  | i + 1, y => do
    -- y[i] = new_d[i] - new_coeffs[i]*y[i+1];
    let di ← vget new_d i
    let ci ← vget new_coeffs i
    let yn ← vget y (i + 1)
    let y ← vset y i (di - ci * yn)
    back_subst new_coeffs new_d i y

/-- The function `fdm::thomas(a, b, c, d)`. -/
def thomas (a b c d : List K) : Option (List K) := do
  let n := d.length
  let new_coeffs : List K := List.replicate n 0
  let new_d : List K := List.replicate n 0
  -- new_coeffs[0] = c[0]/b[0];  new_d[0] = d[0]/b[0];
  let c0 ← vget c 0
  let b0 ← vget b 0
  let new_coeffs ← vset new_coeffs 0 (c0 / b0)
  let d0 ← vget d 0
  let new_d ← vset new_d 0 (d0 / b0)
  let (new_coeffs, new_d) ← forward_sweep a b c d 1 (n - 1) (new_coeffs, new_d)
  -- y[n-1] = new_d[n-1];
  let y : List K := List.replicate n 0
  let dl ← vget new_d (n - 1)
  let y ← vset y (n - 1) dl
  back_subst new_coeffs new_d (n - 1) y

/-! ## Collaborators (declared in headers outside `src/`) -/

/-- The PDE coefficient provider `pde`: `diff_coeff()` and `conv_coeff()` take no argument. -/
structure pde (K : Type) where
  diff_coeff : K
  conv_coeff : K

/-- The interface descriptor read by `get_price` through `get_spot()`, `get_vol()`,
`get_maturity()` and `get_rate()`. -/
structure interface (K : Type) where
  spot : K
  vol : K
  maturity : K
  rate : K

/-- The provider `Space_boundaries`: `space_mesh(dx, opt)` and
`s_boundary_right(spot, vol, maturity)`. -/
structure Space_boundaries (K : Type) where
  space_mesh : K → interface K → Nat
  s_boundary_right : K → K → K → K

/-- The provider `Time_boundaries`: `time_mesh(dt, opt)`, `t_boundary_right(maturity)` and
`t_boundary_left(maturity)`. -/
structure Time_boundaries (K : Type) where
  time_mesh : K → interface K → Nat
  t_boundary_right : K → K
  t_boundary_left : K → K

/-- The members of `fdm_interface` read by the pricer: the rate provider `m_r`
(`get_rate(s, t)`), the Dirichlet values `m_f0`, `m_fN`, the steps `m_dt`, `m_dx` and
`m_theta`. -/
structure fdm (K : Type) where
  m_r : K → K → K
  m_f0 : K
  m_fN : K
  m_dt : K
  m_dx : K
  m_theta : K

/-! ## Coefficient calculator (lines 28-71) -/

/-- The function `fdm_interface::a1`. -/
def a1 (self : fdm K) (p : pde K) (_s _t : K) : K :=
  let alpha := p.diff_coeff / self.m_dx ^ 2
  let beta := p.conv_coeff / (2 * self.m_dx)
  self.m_dt * (1 - self.m_theta) * (beta - alpha)

/-- The function `fdm_interface::a2`. -/
def a2 (self : fdm K) (p : pde K) (s t : K) : K :=
  let alpha := p.diff_coeff / self.m_dx ^ 2
  1 - (1 - self.m_theta) * self.m_dt * (self.m_r s t - 2 * alpha)

/-- The function `fdm_interface::a3`. -/
def a3 (self : fdm K) (p : pde K) (_s _t : K) : K :=
  let alpha := p.diff_coeff / self.m_dx ^ 2
  let beta := p.conv_coeff / (2 * self.m_dx);
  -self.m_dt * (1 - self.m_theta) * (beta + alpha)

/-- The function `fdm_interface::b1`. -/
def b1 (self : fdm K) (p : pde K) (_s _t : K) : K :=
  let alpha := p.diff_coeff / self.m_dx ^ 2
  let beta := p.conv_coeff / (2 * self.m_dx)
  self.m_dt * self.m_theta * (alpha - beta)

/-- The function `fdm_interface::b2`. -/
def b2 (self : fdm K) (p : pde K) (s t : K) : K :=
  let alpha := p.diff_coeff / self.m_dx ^ 2
  1 + self.m_theta * self.m_dt * (self.m_r s t - 2 * alpha)

/-- The function `fdm_interface::b3`. -/
def b3 (self : fdm K) (p : pde K) (_s _t : K) : K :=
  let alpha := p.diff_coeff / self.m_dx ^ 2
  let beta := p.conv_coeff / (2 * self.m_dx)
  self.m_dt * self.m_theta * (beta + alpha)

/-! ## `fdm::get_price` (lines 85-179) -/

/-- The six coefficient vectors `A1, A2, A3, B1, B2, B3`. -/
structure stencil (K : Type) where
  A1 : List K
  A2 : List K
  A3 : List K
  B1 : List K
  B2 : List K
  B3 : List K

/-- The local variables of `get_price` that are live in the time loop: the running spatial
coordinate `s`, the coefficient vectors, `C`, `F` and `D`. -/
structure march_state (K : Type) where
  s : K
  m : stencil K
  C : List K
  F : List K
  D : List K

/-- The coefficient loop, lines 114-124 and 152-162: `for (i = 0; i < N-1; i++)` at time
`t`.  The first numeric argument is `i`, the second the number of iterations left; the
state is the coefficient vectors and the running coordinate `s`. -/
def coeff_loop (self : fdm K) (p : pde K) (t : K) :
    Nat → Nat → stencil K × K → Option (stencil K × K)
  | _, 0, st => some st
  | i, k + 1, (m, s) => do
    let A1 ← vset m.A1 i (a1 self p s t)
    let A2 ← vset m.A2 i (a2 self p s t)
    let A3 ← vset m.A3 i (a3 self p s t)
    let B1 ← vset m.B1 i (b1 self p s t)
    let B2 ← vset m.B2 i (b2 self p s t)
    let B3 ← vset m.B3 i (b3 self p s t)
    -- s -= m_dx;
    coeff_loop self p t (i + 1) k (⟨A1, A2, A3, B1, B2, B3⟩, s - self.m_dx)

/-- The boundary correction, lines 127-131.  Reached with `N ≥ 1` only. -/
def build_C (self : fdm K) (exp : K → K) (N : Nat) (r0 : K) (m : stencil K) :
    Option (List K) := do
  let C : List K := List.replicate (N - 1) 0
  -- C[0] = (A1[0] - B1[0]*exp(-r0*m_dt))*m_f0;
  let x ← vget m.A1 0
  let y ← vget m.B1 0
  let C ← vset C 0 ((x - y * exp (-r0 * self.m_dt)) * self.m_f0)
  -- C[N-2] = (A3[N-2] - B3[N-2]*exp(-r0*m_dt))*m_fN;
  let x ← vget m.A3 (N - 2)
  let y ← vget m.B3 (N - 2)
  vset C (N - 2) ((x - y * exp (-r0 * self.m_dt)) * self.m_fN)

/-- The interior rows of `D`, lines 138-141 and 172-175: `for (i = 1; i < N-2; i++)`. -/
def interior_loop (m : stencil K) (F : List K) : Nat → Nat → List K → Option (List K)
  | _, 0, D => some D
  | i, k + 1, D => do
    -- D[i] = A1[i]*F[i-1] + A2[i]*F[i] + A3[i]*F[i+1];
    let x1 ← vget m.A1 i
    let f1 ← vget F (i - 1)
    let x2 ← vget m.A2 i
    let f2 ← vget F i
    let x3 ← vget m.A3 i
    let f3 ← vget F (i + 1)
    let D ← vset D i (x1 * f1 + x2 * f2 + x3 * f3)
    interior_loop m F (i + 1) k D

/-- The right-hand side, lines 135-141 and 169-175, written into the vector `D`.
Reached with `N ≥ 2` only, so `N - 2` and the loop bound do not wrap. -/
def build_D (N : Nat) (m : stencil K) (F C D : List K) : Option (List K) := do
  -- D[0] = A2[0]*F[0] + A3[0]*F[1] + C[0];
  let x2 ← vget m.A2 0
  let f0 ← vget F 0
  let x3 ← vget m.A3 0
  let f1 ← vget F 1
  let c0 ← vget C 0
  let D ← vset D 0 (x2 * f0 + x3 * f1 + c0)
  -- D[N-2] = A1[N-2]*F[N-2] + A2[N-2]*F[N-2] + C[N-2];
  let x1 ← vget m.A1 (N - 2)
  let g1 ← vget F (N - 2)
  let x2 ← vget m.A2 (N - 2)
  let g2 ← vget F (N - 2)
  let cl ← vget C (N - 2)
  let D ← vset D (N - 2) (x1 * g1 + x2 * g2 + cl)
  interior_loop m F 1 (N - 3) D

/-- One iteration of the time loop at time `t`, lines 152-175. -/
def time_step (self : fdm K) (p : pde K) (N : Nat) (t : K) (st : march_state K) :
    Option (march_state K) := do
  let (m, s) ← coeff_loop self p t 0 (N - 1) (st.m, st.s)
  -- F = thomas(B1, B2, B3, D);
  let F ← thomas m.B1 m.B2 m.B3 st.D
  let D ← build_D N m F st.C st.D
  some ⟨s, m, st.C, F, D⟩

/-- The time loop, lines 146-176: `for (int t = T-1; t >= 0; t--)`.  The numeric argument
is `t + 1`, the number of iterations left. -/
def time_loop (self : fdm K) (p : pde K) (N : Nat) : Nat → march_state K → Option (march_state K)
  | 0, st => some st
  | t + 1, st => do
    let st ← time_step self p N (t : K) st
    time_loop self p N t st

/-- Lines 89-144 of `get_price`: the state on entry to the time loop.  `exp` is the
exponential of `<cmath>`.  For `N = 0` the size `N-1` wraps around and the constructor of
`std::vector` throws, so no state is produced. -/
def get_price_init (self : fdm K) (exp : K → K) (p : pde K) (opt : interface K)
    (payoff : K → K) (sb : Space_boundaries K) (_tb : Time_boundaries K) :
    Option (march_state K) :=
  let N := sb.space_mesh self.m_dx opt
  let r0 := opt.rate
  if N = 0 then none else do
    let F : List K := List.replicate (N - 1) (payoff opt.spot)
    let mat := opt.maturity
    let z : List K := List.replicate (N - 1) 0
    let Smax := sb.s_boundary_right opt.spot opt.vol opt.maturity
    let s := exp Smax
    let (m, _) ← coeff_loop self p mat 0 (N - 1) (⟨z, z, z, z, z, z⟩, s)
    let C ← build_C self exp N r0 m
    let D ← build_D N m F C z
    -- s = exp(Smax);
    some ⟨exp Smax, m, C, F, D⟩

/-- The state of `get_price` on exit from the time loop. -/
def get_price_march (self : fdm K) (exp : K → K) (p : pde K) (opt : interface K)
    (payoff : K → K) (sb : Space_boundaries K) (tb : Time_boundaries K) :
    Option (march_state K) := do
  let st ← get_price_init self exp p opt payoff sb tb
  time_loop self p (sb.space_mesh self.m_dx opt) (tb.time_mesh self.m_dt opt) st

/-- The function `fdm::get_price`: `return F[F.size() - 1]`. -/
def get_price (self : fdm K) (exp : K → K) (p : pde K) (opt : interface K)
    (payoff : K → K) (sb : Space_boundaries K) (tb : Time_boundaries K) : Option K := do
  let st ← get_price_march self exp p opt payoff sb tb
  vget st.F (st.F.length - 1)

/-! ## The recurrences of the forward sweep and of the back substitution -/

/-- Modified super-diagonal `c'[i]` of the forward sweep. -/
def cprime (a b c : List K) : Nat → K
  | 0 => c.getD 0 0 / b.getD 0 0
  | i + 1 => c.getD (i + 1) 0 / (b.getD (i + 1) 0 - a.getD (i + 1) 0 * cprime a b c i)

/-- Modified right-hand side `d'[i]` of the forward sweep. -/
def dprime (a b c d : List K) : Nat → K
  | 0 => d.getD 0 0 / b.getD 0 0
  | i + 1 => (d.getD (i + 1) 0 - a.getD (i + 1) 0 * dprime a b c d i) /
      (b.getD (i + 1) 0 - a.getD (i + 1) 0 * cprime a b c i)

/-- Pivot of row `i`: `b[0]` for the first row, `b[i] - a[i]·c'[i-1]` afterwards. -/
def pivot (a b c : List K) : Nat → K
  | 0 => b.getD 0 0
  | i + 1 => b.getD (i + 1) 0 - a.getD (i + 1) 0 * cprime a b c i

/-- Value `y[n-1-m]` of the back substitution `y[n-1] = d'[n-1]`,
`y[i] = d'[i] - c'[i]·y[i+1]`. -/
def yback (cp dp : Nat → K) (n : Nat) : Nat → K
  | 0 => dp (n - 1)
  | m + 1 => dp (n - 2 - m) - cp (n - 2 - m) * yback cp dp n m

/-- Left-hand side of row `i` of the tridiagonal system at `y`; the terms of `a[0]` and
of `c[n-1]` are absent. -/
def row_lhs (a b c y : List K) (i : Nat) : K :=
  (if i = 0 then 0 else a.getD i 0 * y.getD (i - 1) 0) + b.getD i 0 * y.getD i 0 +
    (if i + 1 < y.length then c.getD i 0 * y.getD (i + 1) 0 else 0)

/-- Closed form of the vector returned by `thomas` on inputs of equal length. -/
def thomas_sol (a b c d : List K) : List K :=
  (List.range d.length).map
    (fun j => yback (cprime a b c) (dprime a b c d) d.length (d.length - 1 - j))

/-- The coefficient vectors after a full coefficient loop over `n` mesh indices at time `t`
that started at the coordinate `s0`: index `j` holds the coefficients at `s0 - j·dx`. -/
def stencil_filled (self : fdm K) (p : pde K) (t s0 : K) (n i : Nat) (m : stencil K) : Prop :=
  (m.A1.length = n ∧ m.A2.length = n ∧ m.A3.length = n ∧
    m.B1.length = n ∧ m.B2.length = n ∧ m.B3.length = n) ∧
  ∀ j, j < i →
    m.A1.getD j 0 = a1 self p (s0 - j * self.m_dx) t ∧
    m.A2.getD j 0 = a2 self p (s0 - j * self.m_dx) t ∧
    m.A3.getD j 0 = a3 self p (s0 - j * self.m_dx) t ∧
    m.B1.getD j 0 = b1 self p (s0 - j * self.m_dx) t ∧
    m.B2.getD j 0 = b2 self p (s0 - j * self.m_dx) t ∧
    m.B3.getD j 0 = b3 self p (s0 - j * self.m_dx) t

/-- All six coefficient vectors have length `n`. -/
def stencil_len (n : Nat) (m : stencil K) : Prop :=
  m.A1.length = n ∧ m.A2.length = n ∧ m.A3.length = n ∧
    m.B1.length = n ∧ m.B2.length = n ∧ m.B3.length = n

/-- Every working vector of the march has length `N - 1`. -/
def march_inv (N : Nat) (st : march_state K) : Prop :=
  stencil_len (N - 1) st.m ∧ st.C.length = N - 1 ∧ st.F.length = N - 1 ∧
    st.D.length = N - 1

/-- What lines 135-141 and 169-175 store in `D`, row by row: note the last row. -/
def rhs_rows (N : Nat) (m : stencil K) (F C D : List K) : Prop :=
  D.getD 0 0 = m.A2.getD 0 0 * F.getD 0 0 + m.A3.getD 0 0 * F.getD 1 0 + C.getD 0 0 ∧
  D.getD (N - 2) 0 = m.A1.getD (N - 2) 0 * F.getD (N - 2) 0 +
    m.A2.getD (N - 2) 0 * F.getD (N - 2) 0 + C.getD (N - 2) 0 ∧
  ∀ j, 1 ≤ j → j < N - 2 → D.getD j 0 =
    m.A1.getD j 0 * F.getD (j - 1) 0 + m.A2.getD j 0 * F.getD j 0 +
      m.A3.getD j 0 * F.getD (j + 1) 0

/-! ## The free store of instrument descriptors (`interface.hpp` is outside `src/`) -/

/-- Modelled from the spec: the `interface` objects reached through pointers.  A pointer is
an index into the store, `none` marks a deleted object.  The spec gives the descriptor
read accessors for spot, volatility, maturity and rate, and modified copies with one field
overridden. -/
abbrev heap (K : Type) := List (Option (interface K))

/-- Modelled from the spec: the object behind the pointer `a`; `none` when `a` is dangling. -/
def heap_get (h : heap K) (a : Nat) : Option (interface K) := (h[a]?).join

/-- Modelled from the spec: overwrite the live object behind `a` by `v`. -/
def heap_put (h : heap K) (a : Nat) (v : Option (interface K)) : Option (heap K) :=
  match heap_get h a with
  | some _ => some (h.set a v)
  | none => none

/-- Modelled from the spec: `new interface(*opt)`, a fresh object holding a copy of `*opt`;
returns the store and the new pointer. -/
def copy_interface (h : heap K) (opt : Nat) : Option (heap K × Nat) := do
  let o ← heap_get h opt
  some (h ++ [some o], h.length)

/-- Modelled from the spec: `p->set_spot(x)`. -/
def set_spot (h : heap K) (p : Nat) (x : K) : Option (heap K) := do
  let o ← heap_get h p
  heap_put h p (some ⟨x, o.vol, o.maturity, o.rate⟩)

/-- Modelled from the spec: `p->set_maturity(x)`. -/
def set_maturity (h : heap K) (p : Nat) (x : K) : Option (heap K) := do
  let o ← heap_get h p
  heap_put h p (some ⟨o.spot, o.vol, x, o.rate⟩)

/-- Modelled from the spec: `p->set_vol(new vol_cst(x))`, after which `get_vol()` is the
constant `x`. -/
def set_vol (h : heap K) (p : Nat) (x : K) : Option (heap K) := do
  let o ← heap_get h p
  heap_put h p (some ⟨o.spot, x, o.maturity, o.rate⟩)

/-- Modelled from the spec: `delete p`. -/
def delete_interface (h : heap K) (p : Nat) : Option (heap K) := heap_put h p none

/-! ## Sensitivity estimator (lines 214-334)

`bs_pde` is the constructor of the coefficient provider `bs_pde(opt)`, declared outside
`src/`; it is a parameter.  Each function returns its value and the store it leaves. -/

/-- The function `fdm::get_delta`. -/
def get_delta (self : fdm K) (exp : K → K) (bs_pde : interface K → pde K) (h : heap K)
    (_t_pde : pde K) (opt : Nat) (payoff : K → K) (sb : Space_boundaries K)
    (tb : Time_boundaries K) : Option (K × heap K) := do
  let o ← heap_get h opt
  let spot_plus := o.spot + 0.01
  let spot_minus := o.spot - 0.01
  let (h, opt_plus) ← copy_interface h opt
  let h ← set_spot h opt_plus spot_plus
  let (h, opt_minus) ← copy_interface h opt
  let h ← set_spot h opt_minus spot_minus
  let op ← heap_get h opt_plus
  let pde_plus := bs_pde op
  let om ← heap_get h opt_minus
  let pde_minus := bs_pde om
  let p_plus ← get_price self exp pde_plus op payoff sb tb
  let p_minus ← get_price self exp pde_minus om payoff sb tb
  let h ← delete_interface h opt_plus
  let h ← delete_interface h opt_minus
  some ((p_plus - p_minus) / 0.02, h)

/-- The function `fdm::get_gamma`. -/
def get_gamma (self : fdm K) (exp : K → K) (bs_pde : interface K → pde K) (h : heap K)
    (t_pde : pde K) (opt : Nat) (payoff : K → K) (sb : Space_boundaries K)
    (tb : Time_boundaries K) : Option (K × heap K) := do
  let o ← heap_get h opt
  let spot_plus := o.spot + 0.01
  let spot_minus := o.spot - 0.01
  let (h, opt_plus) ← copy_interface h opt
  let h ← set_spot h opt_plus spot_plus
  let (h, opt_minus) ← copy_interface h opt
  let h ← set_spot h opt_minus spot_minus
  let op ← heap_get h opt_plus
  let pde_plus := bs_pde op
  let om ← heap_get h opt_minus
  let pde_minus := bs_pde om
  let oc ← heap_get h opt
  let p ← get_price self exp t_pde oc payoff sb tb
  let p_plus ← get_price self exp pde_plus op payoff sb tb
  let p_minus ← get_price self exp pde_minus om payoff sb tb
  let h ← delete_interface h opt_plus
  let h ← delete_interface h opt_minus
  some ((p_plus - 2 * p + p_minus) / (0.01 * 0.01), h)

/-- The function `fdm::get_theta` (the two prints to `std::cout` are left out). -/
def get_theta (self : fdm K) (exp : K → K) (bs_pde : interface K → pde K) (h : heap K)
    (_t_pde : pde K) (opt : Nat) (payoff : K → K) (sb : Space_boundaries K)
    (tb : Time_boundaries K) : Option (K × heap K) := do
  let o ← heap_get h opt
  let t_plus := o.maturity + 0.003
  let t_minus := o.maturity - 0.003
  let (h, opt_plus) ← copy_interface h opt
  let h ← set_maturity h opt_plus t_plus
  let (h, opt_minus) ← copy_interface h opt
  let h ← set_maturity h opt_minus t_minus
  let op ← heap_get h opt_plus
  let pde_plus := bs_pde op
  let om ← heap_get h opt_minus
  let pde_minus := bs_pde om
  let p_plus ← get_price self exp pde_plus op payoff sb tb
  let p_minus ← get_price self exp pde_minus om payoff sb tb
  let h ← delete_interface h opt_plus
  let h ← delete_interface h opt_minus
  some ((p_plus - p_minus) / 0.006, h)

/-- The function `fdm::get_vega` (the two prints to `std::cout` are left out). -/
def get_vega (self : fdm K) (exp : K → K) (bs_pde : interface K → pde K) (h : heap K)
    (_t_pde : pde K) (opt : Nat) (payoff : K → K) (sb : Space_boundaries K)
    (tb : Time_boundaries K) : Option (K × heap K) := do
  let o ← heap_get h opt
  let sig_plus := o.vol + 0.01
  let sig_minus := o.vol - 0.01
  let (h, opt_plus) ← copy_interface h opt
  let h ← set_vol h opt_plus sig_plus
  let (h, opt_minus) ← copy_interface h opt
  let h ← set_vol h opt_minus sig_minus
  let op ← heap_get h opt_plus
  let pde_plus := bs_pde op
  let om ← heap_get h opt_minus
  let pde_minus := bs_pde om
  let p_plus ← get_price self exp pde_plus op payoff sb tb
  let p_minus ← get_price self exp pde_minus om payoff sb tb
  let h ← delete_interface h opt_plus
  let h ← delete_interface h opt_minus
  some ((p_plus - p_minus) / 0.02, h)

/-- The store left by a sensitivity estimate on the store `h`, where `op` and `om` are the
two perturbed copies of `o`: both copies were appended, then deleted. -/
def heap_after (h : heap K) (o op om : interface K) : heap K :=
  ((((h ++ [some o]).set h.length (some op) ++ [some o]).set (h.length + 1) (some om)).set
    h.length none).set (h.length + 1) none

/-- The quotient of lines 240 and 333 with a bump `h` in place of `0.01`:
`(p(x+h) - p(x-h)) / (2h)`, following the wording of the finite-difference estimates. -/
def central_difference (p : K → K) (x h : K) : K := (p (x + h) - p (x - h)) / (2 * h)

/-- The quotient of line 270 with a bump `h` in place of `0.01`:
`(p(x+h) - 2·p(x) + p(x-h)) / (h·h)`. -/
def second_difference (p : K → K) (x h : K) : K :=
  (p (x + h) - 2 * p x + p (x - h)) / (h * h)

/-- The time loop of lines 146-176 once more, recording the state at the end of each
iteration, in the order of execution. -/
def march_trace (self : fdm K) (p : pde K) (N : Nat) :
    Nat → march_state K → Option (List (march_state K))
  | 0, _ => some []
  | t + 1, st => do
    let st1 ← time_step self p N (t : K) st
    let rest ← march_trace self p N t st1
    some (st1 :: rest)

/-- The caller's pointers keep their objects: what a sensitivity estimate that returns `r`
leaves behind every pointer below `h.length`, the pointer `opt` among them. -/
def frame_kept (h : heap K) (opt : Nat) (o : interface K) (res : Option (K × heap K)) : Prop :=
  ∀ r, res = some r →
    heap_get r.2 opt = some o ∧ ∀ a, a < h.length → heap_get r.2 a = heap_get h a

/-! ## Lemmas on vector accesses -/

theorem vget_of_lt (v : List K) (i : Nat) (h : i < v.length) : vget v i = some (v.getD i 0) := by
  simp [vget, List.getD, List.getElem?_eq_getElem h]

theorem vset_of_lt (v : List K) (i : Nat) (x : K) (h : i < v.length) :
    vset v i x = some (v.set i x) := by
  simp [vset, h]

theorem getD_set_self (v : List K) (i : Nat) (x : K) (h : i < v.length) :
    (v.set i x).getD i 0 = x := by
  simp [List.getD, List.getElem?_set_self h]

theorem getD_set_ne (v : List K) (i j : Nat) (x : K) (h : i ≠ j) :
    (v.set i x).getD j 0 = v.getD j 0 := by
  simp [List.getD, List.getElem?_set_ne h]

/-! ## Forward sweep -/

theorem forward_sweep_spec (a b c d : List K) (n : Nat)
    (ha : a.length = n) (hb : b.length = n) (hc : c.length = n) (hd : d.length = n) :
    ∀ (k i : Nat) (nc nd : List K), 1 ≤ i → i + k = n → nc.length = n → nd.length = n →
      (∀ j, j < i → nc.getD j 0 = cprime a b c j) →
      (∀ j, j < i → nd.getD j 0 = dprime a b c d j) →
      ∃ nc1 nd1, forward_sweep a b c d i k (nc, nd) = some (nc1, nd1) ∧
        nc1.length = n ∧ nd1.length = n ∧
        (∀ j, j < n → nc1.getD j 0 = cprime a b c j) ∧
        (∀ j, j < n → nd1.getD j 0 = dprime a b c d j) := by
  intro k
  induction k with
  | zero =>
    intro i nc nd _ hik hnc hnd h1 h2
    have hi : i = n := by omega
    subst hi
    exact ⟨nc, nd, rfl, hnc, hnd, h1, h2⟩
  | succ k ih =>
    intro i nc nd hi hik hnc hnd h1 h2
    have hin : i < n := by omega
    obtain ⟨m, rfl⟩ : ∃ m, i = m + 1 := ⟨i - 1, by omega⟩
    have e1 : forward_sweep a b c d (m + 1) (k + 1) (nc, nd) =
        forward_sweep a b c d (m + 1 + 1) k
          (nc.set (m + 1) (c.getD (m + 1) 0 / (b.getD (m + 1) 0 - a.getD (m + 1) 0 * nc.getD m 0)),
           nd.set (m + 1) ((d.getD (m + 1) 0 - a.getD (m + 1) 0 * nd.getD m 0) /
             (b.getD (m + 1) 0 - a.getD (m + 1) 0 * nc.getD m 0))) := by
      have hm : m ≠ m + 1 := by omega
      simp only [forward_sweep, Nat.add_sub_cancel]
      rw [vget_of_lt c _ (by omega), vget_of_lt b _ (by omega), vget_of_lt a _ (by omega),
        vget_of_lt nc m (by omega), vget_of_lt d _ (by omega), vget_of_lt nd m (by omega)]
      simp only [Option.bind_eq_bind, Option.some_bind]
      rw [vset_of_lt nc _ _ (by omega)]
      simp only [Option.bind_eq_bind, Option.some_bind]
      rw [vget_of_lt _ m (by rw [List.length_set]; omega)]
      simp only [Option.bind_eq_bind, Option.some_bind]
      rw [getD_set_ne _ _ _ _ (Ne.symm hm), vset_of_lt nd _ _ (by omega)]
      simp only [Option.bind_eq_bind, Option.some_bind]
    rw [e1]
    apply ih (m + 1 + 1) _ _ (by omega) (by omega) (by simp [hnc]) (by simp [hnd])
    · intro j hj
      by_cases hjm : j = m + 1
      · subst hjm
        rw [getD_set_self _ _ _ (by omega), h1 m (by omega)]
        rfl
      · rw [getD_set_ne _ _ _ _ (Ne.symm hjm)]
        exact h1 j (by omega)
    · intro j hj
      by_cases hjm : j = m + 1
      · subst hjm
        rw [getD_set_self _ _ _ (by omega), h1 m (by omega), h2 m (by omega)]
        rfl
      · rw [getD_set_ne _ _ _ _ (Ne.symm hjm)]
        exact h2 j (by omega)

/-! ## Back substitution -/

theorem yback_congr (cp dp cp1 dp1 : Nat → K) (n : Nat)
    (hcp : ∀ j, j + 1 < n → cp j = cp1 j) (hdp : ∀ j, j < n → dp j = dp1 j) :
    ∀ m, m < n → yback cp dp n m = yback cp1 dp1 n m := by
  intro m
  induction m with
  | zero =>
    intro h
    simp only [yback]
    exact hdp _ (by omega)
  | succ m ih =>
    intro h
    simp only [yback]
    rw [ih (by omega), hdp _ (by omega), hcp _ (by omega)]

theorem yback_step (cp dp : Nat → K) (n k : Nat) (h : k + 1 < n) :
    yback cp dp n (n - 1 - k) = dp k - cp k * yback cp dp n (n - 1 - (k + 1)) := by
  obtain ⟨m, hm⟩ : ∃ m, n - 1 - k = m + 1 := ⟨n - 2 - k, by omega⟩
  have h1 : n - 1 - (k + 1) = m := by omega
  have h2 : n - 2 - m = k := by omega
  rw [hm, h1]
  simp only [yback, h2]

theorem back_subst_spec (nc nd : List K) (n : Nat) (hnc : nc.length = n) (hnd : nd.length = n) :
    ∀ (k : Nat) (y : List K), k + 1 ≤ n → y.length = n →
      (∀ j, k ≤ j → j < n →
        y.getD j 0 = yback (fun j => nc.getD j 0) (fun j => nd.getD j 0) n (n - 1 - j)) →
      ∃ y1, back_subst nc nd k y = some y1 ∧ y1.length = n ∧
        ∀ j, j < n →
          y1.getD j 0 = yback (fun j => nc.getD j 0) (fun j => nd.getD j 0) n (n - 1 - j) := by
  intro k
  induction k with
  | zero =>
    intro y _ hy h
    exact ⟨y, rfl, hy, fun j hj => h j (Nat.zero_le j) hj⟩
  | succ k ih =>
    intro y hk hy h
    have e1 : back_subst nc nd (k + 1) y =
        back_subst nc nd k (y.set k (nd.getD k 0 - nc.getD k 0 * y.getD (k + 1) 0)) := by
      simp only [back_subst]
      rw [vget_of_lt nd k (by omega), vget_of_lt nc k (by omega),
        vget_of_lt y (k + 1) (by omega)]
      simp only [Option.bind_eq_bind, Option.some_bind]
      rw [vset_of_lt y _ _ (by omega)]
      simp only [Option.bind_eq_bind, Option.some_bind]
    rw [e1]
    apply ih _ (by omega) (by simp [hy])
    intro j hkj hj
    by_cases hjk : j = k
    · subst hjk
      rw [getD_set_self _ _ _ (by omega), h (j + 1) (Nat.le_refl _) (by omega),
        yback_step _ _ n j (by omega)]
    · rw [getD_set_ne _ _ _ _ (Ne.symm hjk)]
      exact h j (by omega) hj

theorem getD_thomas_sol (a b c d : List K) (j : Nat) (hj : j < d.length) :
    (thomas_sol a b c d).getD j 0 =
      yback (cprime a b c) (dprime a b c d) d.length (d.length - 1 - j) := by
  simp [thomas_sol, List.getD, List.getElem?_map, List.getElem?_range hj]

theorem length_thomas_sol (a b c d : List K) : (thomas_sol a b c d).length = d.length := by
  simp [thomas_sol]

theorem list_eq_of_getD (u v : List K) (n : Nat) (hu : u.length = n) (hv : v.length = n)
    (h : ∀ j, j < n → u.getD j 0 = v.getD j 0) : u = v := by
  apply List.ext_getElem (by omega)
  intro j h1 h2
  have := h j (by omega)
  simpa [List.getD, List.getElem?_eq_getElem h1, List.getElem?_eq_getElem h2] using this

/-- On inputs of equal positive length `thomas` returns, and returns `thomas_sol`. -/
theorem thomas_eq (a b c d : List K) (hn : 1 ≤ d.length)
    (ha : a.length = d.length) (hb : b.length = d.length) (hc : c.length = d.length) :
    thomas a b c d = some (thomas_sol a b c d) := by
  obtain ⟨nc1, nd1, hfs, hl1, hl2, hcp, hdp⟩ :=
    forward_sweep_spec a b c d d.length ha hb hc rfl (d.length - 1) 1
      ((List.replicate d.length (0 : K)).set 0 (c.getD 0 0 / b.getD 0 0))
      ((List.replicate d.length (0 : K)).set 0 (d.getD 0 0 / b.getD 0 0))
      (Nat.le_refl 1) (by omega) (by simp) (by simp)
      (fun j hj => by
        have : j = 0 := by omega
        subst this
        rw [getD_set_self _ _ _ (by simpa using hn)]
        rfl)
      (fun j hj => by
        have : j = 0 := by omega
        subst this
        rw [getD_set_self _ _ _ (by simpa using hn)]
        rfl)
  obtain ⟨y1, hbs, hly, hy⟩ :=
    back_subst_spec nc1 nd1 d.length hl1 hl2 (d.length - 1)
      ((List.replicate d.length (0 : K)).set (d.length - 1) (nd1.getD (d.length - 1) 0))
      (by omega) (by simp)
      (fun j h1 h2 => by
        have : j = d.length - 1 := by omega
        subst this
        rw [getD_set_self _ _ _ (by simp; omega), Nat.sub_self]
        rfl)
  have e : thomas a b c d = some y1 := by
    simp only [thomas]
    rw [vget_of_lt c 0 (by omega), vget_of_lt b 0 (by omega), vget_of_lt d 0 (by omega)]
    simp only [Option.bind_eq_bind, Option.some_bind]
    rw [vset_of_lt _ 0 _ (by simpa using hn)]
    simp only [Option.bind_eq_bind, Option.some_bind]
    rw [vset_of_lt _ 0 _ (by simpa using hn)]
    simp only [Option.bind_eq_bind, Option.some_bind]
    rw [hfs]
    simp only [Option.bind_eq_bind, Option.some_bind]
    rw [vget_of_lt nd1 _ (by omega)]
    simp only [Option.bind_eq_bind, Option.some_bind]
    rw [vset_of_lt _ _ _ (by simp; omega)]
    simp only [Option.bind_eq_bind, Option.some_bind]
    exact hbs
  rw [e]
  congr 1
  apply list_eq_of_getD _ _ d.length hly (length_thomas_sol a b c d)
  intro j hj
  rw [hy j hj, getD_thomas_sol a b c d j hj]
  exact yback_congr _ _ _ _ _ (fun i hi => hcp i (by omega)) (fun i hi => hdp i hi) _ (by omega)

/-! ## The returned vector solves the system -/

theorem thomas_sol_last (a b c d : List K) (hn : 1 ≤ d.length) :
    (thomas_sol a b c d).getD (d.length - 1) 0 = dprime a b c d (d.length - 1) := by
  rw [getD_thomas_sol a b c d _ (by omega), Nat.sub_self]
  rfl

theorem thomas_sol_step (a b c d : List K) (j : Nat) (hj : j + 1 < d.length) :
    (thomas_sol a b c d).getD j 0 =
      dprime a b c d j - cprime a b c j * (thomas_sol a b c d).getD (j + 1) 0 := by
  rw [getD_thomas_sol a b c d _ (by omega), getD_thomas_sol a b c d _ hj,
    yback_step _ _ _ j hj]

theorem row_first (b0 c0 d0 y1 : K) (h : b0 ≠ 0) :
    0 + b0 * (d0 / b0 - c0 / b0 * y1) + c0 * y1 = d0 := by
  field_simp

theorem row_single (b0 d0 : K) (h : b0 ≠ 0) : 0 + b0 * (d0 / b0) + 0 = d0 := by
  field_simp

theorem row_middle (a b c d cp dp yn : K) (h : b - a * cp ≠ 0) :
    a * (dp - cp * ((d - a * dp) / (b - a * cp) - c / (b - a * cp) * yn)) +
      b * ((d - a * dp) / (b - a * cp) - c / (b - a * cp) * yn) + c * yn = d := by
  field_simp
  ring

theorem row_last (a b d cp dp : K) (h : b - a * cp ≠ 0) :
    a * (dp - cp * ((d - a * dp) / (b - a * cp))) + b * ((d - a * dp) / (b - a * cp)) + 0 = d := by
  field_simp
  ring

theorem thomas_sol_row (a b c d : List K)
    (hp : ∀ i, i < d.length → pivot a b c i ≠ 0) :
    ∀ i, i < d.length → row_lhs a b c (thomas_sol a b c d) i = d.getD i 0 := by
  intro i hi
  have hpi := hp i hi
  unfold row_lhs
  rw [length_thomas_sol]
  cases i with
  | zero =>
    simp only [pivot] at hpi
    by_cases h1 : 0 + 1 < d.length
    · rw [if_pos rfl, if_pos h1, thomas_sol_step a b c d 0 h1]
      simp only [cprime, dprime]
      exact row_first _ _ _ _ hpi
    · have h0 : d.length - 1 = 0 := by omega
      have := thomas_sol_last a b c d (by omega)
      rw [h0] at this
      rw [if_pos rfl, if_neg h1, this]
      simp only [dprime]
      exact row_single _ _ hpi
  | succ m =>
    simp only [pivot] at hpi
    have hm := thomas_sol_step a b c d m (by omega)
    rw [if_neg (Nat.succ_ne_zero m), Nat.add_sub_cancel, hm]
    by_cases h1 : m + 1 + 1 < d.length
    · rw [if_pos h1, thomas_sol_step a b c d (m + 1) h1]
      simp only [cprime, dprime]
      exact row_middle _ _ _ _ _ _ _ hpi
    · have h0 : d.length - 1 = m + 1 := by omega
      have := thomas_sol_last a b c d (by omega)
      rw [h0] at this
      rw [if_neg h1, this]
      simp only [dprime]
      exact row_last _ _ _ _ _ hpi

/-! ## Strict diagonal dominance -/

theorem cprime_eq_div_pivot (a b c : List K) (i : Nat) :
    cprime a b c i = c.getD i 0 / pivot a b c i := by
  cases i <;> rfl

theorem pivot_dominant {F : Type} [LinearOrderedField F] (a b c : List F) (n : Nat)
    (hdom : ∀ i, i < n → (if i = 0 then 0 else |a.getD i 0|) +
      (if i + 1 < n then |c.getD i 0| else 0) < |b.getD i 0|) :
    ∀ i, i < n → (if i + 1 < n then |c.getD i 0| else 0) < |pivot a b c i| := by
  intro i
  induction i with
  | zero =>
    intro h0
    have h := hdom 0 h0
    rw [if_pos rfl, zero_add] at h
    exact h
  | succ i ih =>
    intro hi
    have h := hdom (i + 1) hi
    rw [if_neg (Nat.succ_ne_zero i)] at h
    have hprev := ih (by omega)
    rw [if_pos hi] at hprev
    have hpos : 0 < |pivot a b c i| := lt_of_le_of_lt (abs_nonneg _) hprev
    have hcp : |cprime a b c i| ≤ 1 := by
      rw [cprime_eq_div_pivot, abs_div, div_le_one hpos]
      exact le_of_lt hprev
    have h1 : |a.getD (i + 1) 0 * cprime a b c i| ≤ |a.getD (i + 1) 0| := by
      rw [abs_mul]
      exact mul_le_of_le_one_right (abs_nonneg _) hcp
    have h2 : |b.getD (i + 1) 0| - |a.getD (i + 1) 0 * cprime a b c i| ≤
        |b.getD (i + 1) 0 - a.getD (i + 1) 0 * cprime a b c i| := abs_sub_abs_le_abs_sub _ _
    simp only [pivot]
    linarith

theorem pivot_ne_zero_of_dominant {F : Type} [LinearOrderedField F] (a b c : List F) (n : Nat)
    (hdom : ∀ i, i < n → (if i = 0 then 0 else |a.getD i 0|) +
      (if i + 1 < n then |c.getD i 0| else 0) < |b.getD i 0|) :
    ∀ i, i < n → pivot a b c i ≠ 0 := by
  intro i hi h0
  have h := pivot_dominant a b c n hdom i hi
  rw [h0, abs_zero] at h
  have h3 : (0 : F) ≤ (if i + 1 < n then |c.getD i 0| else 0) := by
    split
    · exact abs_nonneg _
    · exact le_refl _
  linarith

/-! ## The coefficient loop -/

theorem set_filled (v : List K) (n i : Nat) (f : Nat → K) (x : K) (hv : v.length = n)
    (hi : i < n) (h : ∀ j, j < i → v.getD j 0 = f j) (hx : x = f i) :
    ∀ j, j < i + 1 → (v.set i x).getD j 0 = f j := by
  intro j hj
  by_cases hji : j = i
  · subst hji
    rw [getD_set_self _ _ _ (by omega), hx]
  · rw [getD_set_ne _ _ _ _ (Ne.symm hji)]
    exact h j (by omega)

theorem coeff_loop_spec (self : fdm K) (p : pde K) (t s0 : K) (n : Nat) :
    ∀ (k i : Nat) (m : stencil K) (s : K), i + k = n → s = s0 - i * self.m_dx →
      stencil_filled self p t s0 n i m →
      ∃ m1, coeff_loop self p t i k (m, s) = some (m1, s0 - n * self.m_dx) ∧
        stencil_filled self p t s0 n n m1 := by
  intro k
  induction k with
  | zero =>
    intro i m s hik hs hm
    have hi : i = n := by omega
    subst hi
    exact ⟨m, by rw [hs]; rfl, hm⟩
  | succ k ih =>
    intro i m s hik hs hm
    obtain ⟨⟨l1, l2, l3, l4, l5, l6⟩, hf⟩ := hm
    have hin : i < n := by omega
    have e1 : coeff_loop self p t i (k + 1) (m, s) =
        coeff_loop self p t (i + 1) k
          (⟨m.A1.set i (a1 self p s t), m.A2.set i (a2 self p s t), m.A3.set i (a3 self p s t),
            m.B1.set i (b1 self p s t), m.B2.set i (b2 self p s t),
            m.B3.set i (b3 self p s t)⟩, s - self.m_dx) := by
      simp only [coeff_loop]
      rw [vset_of_lt m.A1 _ _ (by omega), vset_of_lt m.A2 _ _ (by omega),
        vset_of_lt m.A3 _ _ (by omega), vset_of_lt m.B1 _ _ (by omega),
        vset_of_lt m.B2 _ _ (by omega), vset_of_lt m.B3 _ _ (by omega)]
      simp only [Option.bind_eq_bind, Option.some_bind]
    rw [e1]
    apply ih (i + 1) _ _ (by omega) (by rw [hs]; push_cast; ring)
    refine ⟨by simp only [List.length_set]; exact ⟨l1, l2, l3, l4, l5, l6⟩, ?_⟩
    intro j hj
    exact ⟨set_filled _ n i (fun j => a1 self p (s0 - j * self.m_dx) t) _ l1 hin
        (fun j hj => (hf j hj).1) (by rw [hs]) j hj,
      set_filled _ n i (fun j => a2 self p (s0 - j * self.m_dx) t) _ l2 hin
        (fun j hj => (hf j hj).2.1) (by rw [hs]) j hj,
      set_filled _ n i (fun j => a3 self p (s0 - j * self.m_dx) t) _ l3 hin
        (fun j hj => (hf j hj).2.2.1) (by rw [hs]) j hj,
      set_filled _ n i (fun j => b1 self p (s0 - j * self.m_dx) t) _ l4 hin
        (fun j hj => (hf j hj).2.2.2.1) (by rw [hs]) j hj,
      set_filled _ n i (fun j => b2 self p (s0 - j * self.m_dx) t) _ l5 hin
        (fun j hj => (hf j hj).2.2.2.2.1) (by rw [hs]) j hj,
      set_filled _ n i (fun j => b3 self p (s0 - j * self.m_dx) t) _ l6 hin
        (fun j hj => (hf j hj).2.2.2.2.2) (by rw [hs]) j hj⟩

/-- A full coefficient loop started at index `0` returns whatever the vectors held. -/
theorem coeff_loop_full (self : fdm K) (p : pde K) (t s0 : K) (n : Nat) (m : stencil K)
    (hm : m.A1.length = n ∧ m.A2.length = n ∧ m.A3.length = n ∧
      m.B1.length = n ∧ m.B2.length = n ∧ m.B3.length = n) :
    ∃ m1, coeff_loop self p t 0 n (m, s0) = some (m1, s0 - n * self.m_dx) ∧
      stencil_filled self p t s0 n n m1 :=
  coeff_loop_spec self p t s0 n n 0 m s0 (by omega) (by simp)
    ⟨hm, fun j hj => absurd hj (Nat.not_lt_zero j)⟩

/-! ## The boundary correction and the right-hand side -/

theorem build_C_eq (self : fdm K) (exp : K → K) (N : Nat) (r0 : K) (m : stencil K)
    (hN : 2 ≤ N) (h1 : m.A1.length = N - 1) (h2 : m.B1.length = N - 1)
    (h3 : m.A3.length = N - 1) (h4 : m.B3.length = N - 1) :
    build_C self exp N r0 m = some
      (((List.replicate (N - 1) (0 : K)).set 0
        ((m.A1.getD 0 0 - m.B1.getD 0 0 * exp (-r0 * self.m_dt)) * self.m_f0)).set (N - 2)
        ((m.A3.getD (N - 2) 0 - m.B3.getD (N - 2) 0 * exp (-r0 * self.m_dt)) * self.m_fN)) := by
  simp only [build_C]
  rw [vget_of_lt m.A1 0 (by omega), vget_of_lt m.B1 0 (by omega),
    vget_of_lt m.A3 _ (by omega), vget_of_lt m.B3 _ (by omega)]
  simp only [Option.bind_eq_bind, Option.some_bind]
  rw [vset_of_lt _ 0 _ (by simp; omega)]
  simp only [Option.bind_eq_bind, Option.some_bind]
  rw [vset_of_lt _ _ _ (by simp; omega)]

theorem interior_loop_spec (m : stencil K) (F : List K) (N : Nat)
    (h1 : m.A1.length = N - 1) (h2 : m.A2.length = N - 1) (h3 : m.A3.length = N - 1)
    (hF : F.length = N - 1) :
    ∀ (k i : Nat) (D : List K), 1 ≤ i → i + k = N - 2 → D.length = N - 1 →
      ∃ D1, interior_loop m F i k D = some D1 ∧ D1.length = N - 1 ∧
        (∀ j, j < i ∨ N - 2 ≤ j → D1.getD j 0 = D.getD j 0) ∧
        ∀ j, i ≤ j → j < N - 2 → D1.getD j 0 =
          m.A1.getD j 0 * F.getD (j - 1) 0 + m.A2.getD j 0 * F.getD j 0 +
            m.A3.getD j 0 * F.getD (j + 1) 0 := by
  intro k
  induction k with
  | zero =>
    intro i D _ hik hD
    exact ⟨D, rfl, hD, fun _ _ => rfl, fun j hj1 hj2 => by omega⟩
  | succ k ih =>
    intro i D hi hik hD
    have e1 : interior_loop m F i (k + 1) D =
        interior_loop m F (i + 1) k
          (D.set i (m.A1.getD i 0 * F.getD (i - 1) 0 + m.A2.getD i 0 * F.getD i 0 +
            m.A3.getD i 0 * F.getD (i + 1) 0)) := by
      simp only [interior_loop]
      rw [vget_of_lt m.A1 i (by omega), vget_of_lt F (i - 1) (by omega),
        vget_of_lt m.A2 i (by omega), vget_of_lt F i (by omega),
        vget_of_lt m.A3 i (by omega), vget_of_lt F (i + 1) (by omega)]
      simp only [Option.bind_eq_bind, Option.some_bind]
      rw [vset_of_lt D _ _ (by omega)]
      simp only [Option.bind_eq_bind, Option.some_bind]
    obtain ⟨D1, hD1, hl, hout, hin⟩ := ih (i + 1) _ (by omega) (by omega)
      (show (D.set i (m.A1.getD i 0 * F.getD (i - 1) 0 + m.A2.getD i 0 * F.getD i 0 +
        m.A3.getD i 0 * F.getD (i + 1) 0)).length = N - 1 by simp [hD])
    refine ⟨D1, by rw [e1]; exact hD1, hl, ?_, ?_⟩
    · intro j hj
      rw [hout j (by omega), getD_set_ne _ _ _ _ (by omega)]
    · intro j hj1 hj2
      by_cases hji : j = i
      · subst hji
        rw [hout j (by omega), getD_set_self _ _ _ (by omega)]
      · exact hin j (by omega) hj2

theorem build_D_spec (N : Nat) (m : stencil K) (F C D : List K) (hN : 3 ≤ N)
    (h1 : m.A1.length = N - 1) (h2 : m.A2.length = N - 1) (h3 : m.A3.length = N - 1)
    (hF : F.length = N - 1) (hC : C.length = N - 1) (hD : D.length = N - 1) :
    ∃ D1, build_D N m F C D = some D1 ∧ D1.length = N - 1 ∧
      D1.getD 0 0 = m.A2.getD 0 0 * F.getD 0 0 + m.A3.getD 0 0 * F.getD 1 0 + C.getD 0 0 ∧
      D1.getD (N - 2) 0 = m.A1.getD (N - 2) 0 * F.getD (N - 2) 0 +
        m.A2.getD (N - 2) 0 * F.getD (N - 2) 0 + C.getD (N - 2) 0 ∧
      ∀ j, 1 ≤ j → j < N - 2 → D1.getD j 0 =
        m.A1.getD j 0 * F.getD (j - 1) 0 + m.A2.getD j 0 * F.getD j 0 +
          m.A3.getD j 0 * F.getD (j + 1) 0 := by
  obtain ⟨D1, hD1, hl, hout, hin⟩ := interior_loop_spec m F N h1 h2 h3 hF (N - 3) 1
    ((D.set 0 (m.A2.getD 0 0 * F.getD 0 0 + m.A3.getD 0 0 * F.getD 1 0 + C.getD 0 0)).set (N - 2)
      (m.A1.getD (N - 2) 0 * F.getD (N - 2) 0 + m.A2.getD (N - 2) 0 * F.getD (N - 2) 0 +
        C.getD (N - 2) 0))
    (Nat.le_refl 1) (by omega) (by simp [hD])
  refine ⟨D1, ?_, hl, ?_, ?_, hin⟩
  · simp only [build_D]
    rw [vget_of_lt m.A2 0 (by omega), vget_of_lt F 0 (by omega), vget_of_lt m.A3 0 (by omega),
      vget_of_lt F 1 (by omega), vget_of_lt C 0 (by omega), vget_of_lt m.A1 _ (by omega),
      vget_of_lt F (N - 2) (by omega), vget_of_lt m.A2 (N - 2) (by omega),
      vget_of_lt C (N - 2) (by omega)]
    simp only [Option.bind_eq_bind, Option.some_bind]
    rw [vset_of_lt D 0 _ (by omega)]
    simp only [Option.bind_eq_bind, Option.some_bind]
    rw [vset_of_lt _ (N - 2) _ (by simp [hD]; omega)]
    simp only [Option.bind_eq_bind, Option.some_bind]
    exact hD1
  · rw [hout 0 (by omega), getD_set_ne _ _ _ _ (by omega), getD_set_self _ _ _ (by omega)]
  · rw [hout (N - 2) (by omega), getD_set_self _ _ _ (by simp [hD]; omega)]

/-! ## The time loop -/

theorem time_step_spec (self : fdm K) (p : pde K) (N : Nat) (t : K) (st : march_state K)
    (hN : 3 ≤ N) (hst : march_inv N st) :
    ∃ st1, time_step self p N t st = some st1 ∧ march_inv N st1 ∧ st1.C = st.C ∧
      st1.s = st.s - ((N - 1 : ℕ) : K) * self.m_dx ∧
      stencil_filled self p t st.s (N - 1) (N - 1) st1.m ∧
      st1.F = thomas_sol st1.m.B1 st1.m.B2 st1.m.B3 st.D ∧
      rhs_rows N st1.m st1.F st.C st1.D := by
  obtain ⟨hm, hC, hF, hD⟩ := hst
  obtain ⟨m1, hcl, hfill⟩ := coeff_loop_full self p t st.s (N - 1) st.m hm
  obtain ⟨⟨l1, l2, l3, l4, l5, l6⟩, hval⟩ := hfill
  have hth : thomas m1.B1 m1.B2 m1.B3 st.D = some (thomas_sol m1.B1 m1.B2 m1.B3 st.D) :=
    thomas_eq _ _ _ _ (by omega) (by omega) (by omega) (by omega)
  have hFl : (thomas_sol m1.B1 m1.B2 m1.B3 st.D).length = N - 1 := by
    rw [length_thomas_sol, hD]
  obtain ⟨D1, hD1, hDl, hrows⟩ :=
    build_D_spec N m1 (thomas_sol m1.B1 m1.B2 m1.B3 st.D) st.C st.D hN l1 l2 l3 hFl hC hD
  refine ⟨⟨st.s - ((N - 1 : ℕ) : K) * self.m_dx, m1, st.C,
    thomas_sol m1.B1 m1.B2 m1.B3 st.D, D1⟩, ?_,
    ⟨⟨l1, l2, l3, l4, l5, l6⟩, hC, hFl, hDl⟩, rfl, rfl, ⟨⟨l1, l2, l3, l4, l5, l6⟩, hval⟩,
    rfl, hrows⟩
  simp only [time_step]
  rw [hcl]
  simp only [Option.bind_eq_bind, Option.some_bind]
  rw [hth]
  simp only [Option.bind_eq_bind, Option.some_bind]
  rw [hD1]
  simp only [Option.bind_eq_bind, Option.some_bind]

theorem time_loop_spec (self : fdm K) (p : pde K) (N : Nat) (hN : 3 ≤ N) :
    ∀ (T : Nat) (st : march_state K), march_inv N st →
      ∃ st1, time_loop self p N T st = some st1 ∧ march_inv N st1 ∧ st1.C = st.C ∧
        (1 ≤ T → stencil_filled self p 0
          (st.s - (((T - 1) * (N - 1) : ℕ) : K) * self.m_dx) (N - 1) (N - 1) st1.m) := by
  intro T
  induction T with
  | zero =>
    intro st hst
    exact ⟨st, rfl, hst, rfl, fun h => absurd h (by omega)⟩
  | succ T ih =>
    intro st hst
    obtain ⟨st1, h1, hinv1, hC1, hs1, hfill1, -, -⟩ :=
      time_step_spec self p N (T : K) st hN hst
    obtain ⟨st2, h2, hinv2, hC2, hfill2⟩ := ih st1 hinv1
    refine ⟨st2, ?_, hinv2, by rw [hC2, hC1], ?_⟩
    · simp only [time_loop]
      rw [h1]
      simp only [Option.bind_eq_bind, Option.some_bind]
      exact h2
    · intro _
      cases T with
      | zero =>
        simp only [time_loop, Option.some.injEq] at h2
        subst h2
        simpa using hfill1
      | succ T =>
        have := hfill2 (by omega)
        rw [hs1] at this
        have e : st.s - ((N - 1 : ℕ) : K) * self.m_dx -
            (((T + 1 - 1) * (N - 1) : ℕ) : K) * self.m_dx =
            st.s - (((T + 1 + 1 - 1) * (N - 1) : ℕ) : K) * self.m_dx := by
          simp only [Nat.add_sub_cancel]
          push_cast
          ring
        rw [e] at this
        exact this

/-! ## Entry to the time loop -/

theorem get_price_init_spec (self : fdm K) (exp : K → K) (p : pde K) (opt : interface K)
    (payoff : K → K) (sb : Space_boundaries K) (tb : Time_boundaries K)
    (hN : 3 ≤ sb.space_mesh self.m_dx opt) :
    ∃ st, get_price_init self exp p opt payoff sb tb = some st ∧
      march_inv (sb.space_mesh self.m_dx opt) st ∧
      st.s = exp (sb.s_boundary_right opt.spot opt.vol opt.maturity) ∧
      stencil_filled self p opt.maturity
        (exp (sb.s_boundary_right opt.spot opt.vol opt.maturity))
        (sb.space_mesh self.m_dx opt - 1) (sb.space_mesh self.m_dx opt - 1) st.m ∧
      build_C self exp (sb.space_mesh self.m_dx opt) opt.rate st.m = some st.C ∧
      st.F = List.replicate (sb.space_mesh self.m_dx opt - 1) (payoff opt.spot) ∧
      rhs_rows (sb.space_mesh self.m_dx opt) st.m st.F st.C st.D := by
  generalize hs0 : exp (sb.s_boundary_right opt.spot opt.vol opt.maturity) = s0
  generalize hNN : sb.space_mesh self.m_dx opt = N at hN ⊢
  have hne : ¬ N = 0 := by omega
  have hz : (List.replicate (N - 1) (0 : K)).length = N - 1 := List.length_replicate _ _
  obtain ⟨m1, hcl, hfill⟩ := coeff_loop_full self p opt.maturity s0 (N - 1)
    ⟨List.replicate (N - 1) 0, List.replicate (N - 1) 0, List.replicate (N - 1) 0,
      List.replicate (N - 1) 0, List.replicate (N - 1) 0, List.replicate (N - 1) 0⟩
    ⟨hz, hz, hz, hz, hz, hz⟩
  obtain ⟨⟨l1, l2, l3, l4, l5, l6⟩, hval⟩ := hfill
  have hC := build_C_eq self exp N opt.rate m1 (by omega) l1 l4 l3 l6
  obtain ⟨D1, hD1, hDl, hrows⟩ := build_D_spec N m1
    (List.replicate (N - 1) (payoff opt.spot))
    (((List.replicate (N - 1) (0 : K)).set 0
        ((m1.A1.getD 0 0 - m1.B1.getD 0 0 * exp (-opt.rate * self.m_dt)) * self.m_f0)).set
        (N - 2)
        ((m1.A3.getD (N - 2) 0 - m1.B3.getD (N - 2) 0 * exp (-opt.rate * self.m_dt)) *
            self.m_fN))
    (List.replicate (N - 1) 0) hN l1 l2 l3 (by simp) (by simp) (by simp)
  refine ⟨⟨s0, m1, _, List.replicate (N - 1) (payoff opt.spot), D1⟩,
    ?_, ⟨⟨l1, l2, l3, l4, l5, l6⟩, by simp, by simp, hDl⟩, rfl,
    ⟨⟨l1, l2, l3, l4, l5, l6⟩, hval⟩, hC, rfl, hrows⟩
  simp only [get_price_init, if_neg hne, hs0, hNN]
  rw [hcl]
  simp only [Option.bind_eq_bind, Option.some_bind]
  rw [hC]
  simp only [Option.bind_eq_bind, Option.some_bind]
  rw [hD1]
  simp only [Option.bind_eq_bind, Option.some_bind]

/-- The whole march returns a state as soon as `N ≥ 3`, whatever `T` is. -/
theorem get_price_march_spec (self : fdm K) (exp : K → K) (p : pde K) (opt : interface K)
    (payoff : K → K) (sb : Space_boundaries K) (tb : Time_boundaries K)
    (hN : 3 ≤ sb.space_mesh self.m_dx opt) :
    ∃ st0 st, get_price_init self exp p opt payoff sb tb = some st0 ∧
      get_price_march self exp p opt payoff sb tb = some st ∧
      march_inv (sb.space_mesh self.m_dx opt) st ∧ st.C = st0.C ∧
      (1 ≤ tb.time_mesh self.m_dt opt → stencil_filled self p 0
        (exp (sb.s_boundary_right opt.spot opt.vol opt.maturity) -
          (((tb.time_mesh self.m_dt opt - 1) * (sb.space_mesh self.m_dx opt - 1) : ℕ) : K) *
            self.m_dx)
        (sb.space_mesh self.m_dx opt - 1) (sb.space_mesh self.m_dx opt - 1) st.m) := by
  obtain ⟨st0, h0, hinv0, hs0, -, -, -, -⟩ :=
    get_price_init_spec self exp p opt payoff sb tb hN
  obtain ⟨st, h1, hinv, hC, hfill⟩ :=
    time_loop_spec self p _ hN (tb.time_mesh self.m_dt opt) st0 hinv0
  refine ⟨st0, st, h0, ?_, hinv, hC, ?_⟩
  · simp only [get_price_march]
    rw [h0]
    simp only [Option.bind_eq_bind, Option.some_bind]
    exact h1
  · intro hT
    have := hfill hT
    rw [hs0] at this
    exact this

/-- With a single interior point the read `F[1]` of line 135 is out of range. -/
theorem build_D_one (N : Nat) (m : stencil K) (F C D : List K) (hF : F.length = 1) :
    build_D N m F C D = none := by
  have h1 : vget F 1 = none := by
    simp [vget, List.getElem?_eq_none, hF]
  simp only [build_D, h1, Option.bind_eq_bind, Option.none_bind, Option.bind_eq_none]
  intros
  simp

/-! ## Symbolic runs on the smallest meshes -/

/-- The function `thomas` on a system of three equations. -/
theorem thomas_three (a0 a1 a2 b0 b1 b2 c0 c1 c2 d0 d1 d2 : K) :
    thomas [a0, a1, a2] [b0, b1, b2] [c0, c1, c2] [d0, d1, d2] =
      some [d0 / b0 - c0 / b0 * ((d1 - a1 * (d0 / b0)) / (b1 - a1 * (c0 / b0)) -
              c1 / (b1 - a1 * (c0 / b0)) *
                ((d2 - a2 * ((d1 - a1 * (d0 / b0)) / (b1 - a1 * (c0 / b0)))) /
                  (b2 - a2 * (c1 / (b1 - a1 * (c0 / b0)))))),
            (d1 - a1 * (d0 / b0)) / (b1 - a1 * (c0 / b0)) -
              c1 / (b1 - a1 * (c0 / b0)) *
                ((d2 - a2 * ((d1 - a1 * (d0 / b0)) / (b1 - a1 * (c0 / b0)))) /
                  (b2 - a2 * (c1 / (b1 - a1 * (c0 / b0))))),
            (d2 - a2 * ((d1 - a1 * (d0 / b0)) / (b1 - a1 * (c0 / b0)))) /
                  (b2 - a2 * (c1 / (b1 - a1 * (c0 / b0))))] :=
  rfl

/-- The state on exit from the time loop for `N = 3` and `T = 1`, symbolically. -/
theorem march_three_one (self : fdm K) (exp : K → K) (p : pde K) (opt : interface K)
    (payoff : K → K) (sb : Space_boundaries K) (tb : Time_boundaries K)
    (hN : sb.space_mesh self.m_dx opt = 3) (hT : tb.time_mesh self.m_dt opt = 1) :
    let s0 := exp (sb.s_boundary_right opt.spot opt.vol opt.maturity)
    let s1 := s0 - self.m_dx
    let e := exp (-opt.rate * self.m_dt)
    let C0 := (a1 self p s0 opt.maturity - b1 self p s0 opt.maturity * e) * self.m_f0
    let C1 := (a3 self p s1 opt.maturity - b3 self p s1 opt.maturity * e) * self.m_fN
    let f := payoff opt.spot
    let D0 := a2 self p s0 opt.maturity * f + a3 self p s0 opt.maturity * f + C0
    let D1 := a1 self p s1 opt.maturity * f + a2 self p s1 opt.maturity * f + C1
    let t : K := ((0 : ℕ) : K)
    let F1 := (D1 - b1 self p s1 t * (D0 / b2 self p s0 t)) /
      (b2 self p s1 t - b1 self p s1 t * (b3 self p s0 t / b2 self p s0 t))
    let F0 := D0 / b2 self p s0 t - b3 self p s0 t / b2 self p s0 t * F1
    get_price_march self exp p opt payoff sb tb = some
      ⟨s1 - self.m_dx,
        ⟨[a1 self p s0 t, a1 self p s1 t], [a2 self p s0 t, a2 self p s1 t],
          [a3 self p s0 t, a3 self p s1 t], [b1 self p s0 t, b1 self p s1 t],
          [b2 self p s0 t, b2 self p s1 t], [b3 self p s0 t, b3 self p s1 t]⟩,
        [C0, C1], [F0, F1],
        [a2 self p s0 t * F0 + a3 self p s0 t * F1 + C0,
          a1 self p s1 t * F1 + a2 self p s1 t * F1 + C1]⟩ := by
  simp only [get_price_march, get_price_init, hN, hT]
  rfl

/-! ## Entries that the solver never uses -/

theorem cprime_ignores_ends (a b c : List K) (n : Nat) (x z : K) :
    ∀ j, j + 1 < n → cprime (a.set 0 x) b (c.set (n - 1) z) j = cprime a b c j := by
  intro j
  induction j with
  | zero =>
    intro h
    simp only [cprime]
    rw [getD_set_ne c _ _ _ (by omega)]
  | succ j ih =>
    intro h
    simp only [cprime]
    rw [ih (by omega), getD_set_ne c _ _ _ (by omega), getD_set_ne a _ _ _ (by omega)]

theorem dprime_ignores_ends (a b c d : List K) (n : Nat) (x z : K) :
    ∀ j, j < n → dprime (a.set 0 x) b (c.set (n - 1) z) d j = dprime a b c d j := by
  intro j
  induction j with
  | zero =>
    intro _
    rfl
  | succ j ih =>
    intro h
    simp only [dprime]
    rw [ih (by omega), cprime_ignores_ends a b c n x z j h, getD_set_ne a _ _ _ (by omega)]

theorem thomas_sol_ignores_ends (a b c d : List K) (x z : K) :
    thomas_sol (a.set 0 x) b (c.set (d.length - 1) z) d = thomas_sol a b c d := by
  apply list_eq_of_getD _ _ d.length (length_thomas_sol _ _ _ _) (length_thomas_sol _ _ _ _)
  intro j hj
  rw [getD_thomas_sol _ _ _ _ j hj, getD_thomas_sol _ _ _ _ j hj]
  exact yback_congr _ _ _ _ _ (cprime_ignores_ends a b c d.length x z)
    (dprime_ignores_ends a b c d d.length x z) _ (by omega)

/-- A time step does not write to `C`. -/
theorem time_step_C (self : fdm K) (p : pde K) (N : Nat) (t : K) (st st1 : march_state K)
    (h : time_step self p N t st = some st1) : st1.C = st.C := by
  simp only [time_step, Option.bind_eq_bind, Option.bind_eq_some] at h
  obtain ⟨ms, -, F, -, D, -, h⟩ := h
  cases h
  rfl

/-- For `N = 2` the march stops at the out-of-range read `F[1]` of line 135. -/
theorem get_price_two (self : fdm K) (exp : K → K) (p : pde K) (opt : interface K)
    (payoff : K → K) (sb : Space_boundaries K) (tb : Time_boundaries K)
    (hN : sb.space_mesh self.m_dx opt = 2) :
    get_price self exp p opt payoff sb tb = none := by
  simp only [get_price, get_price_march, get_price_init, hN]
  rfl

/-! ## The tridiagonal solver: claims -/

/-- C1: for `n ≥ 1` and sequences `a, b, c, d` of length `n` over a field (the reals in
particular) whose pivots `b[0]` and `b[i] - a[i]·c'[i-1]` are all nonzero, `thomas a b c d`
returns a vector `y` of length `n`, and `y` satisfies every row of the tridiagonal system:
row `i` reads `a[i]·y[i-1] + b[i]·y[i] + c[i]·y[i+1] = d[i]`, without the `a` term in row
`0` and without the `c` term in row `n-1`. -/
theorem thomas_solves_system (n : Nat) (a b c d : List K) (hn : 1 ≤ n)
    (ha : a.length = n) (hb : b.length = n) (hc : c.length = n) (hd : d.length = n)
    (hp : ∀ i, i < n → pivot a b c i ≠ 0) :
    ∃ y, thomas a b c d = some y ∧ y.length = n ∧
      ∀ i, i < n → row_lhs a b c y i = d.getD i 0 := by
  subst hd
  exact ⟨thomas_sol a b c d, thomas_eq a b c d hn ha hb hc, length_thomas_sol a b c d,
    thomas_sol_row a b c d hp⟩

theorem thomas_solves_system_witness :
    (∀ i, i < 3 → pivot ([0, 1, 1] : List ℚ) [2, 2, 2] [1, 1, 0] i ≠ 0) ∧
    ∃ y, thomas ([0, 1, 1] : List ℚ) [2, 2, 2] [1, 1, 0] [3, 4, 3] = some y ∧ y.length = 3 ∧
      ∀ i, i < 3 → row_lhs ([0, 1, 1] : List ℚ) [2, 2, 2] [1, 1, 0] y i =
        ([3, 4, 3] : List ℚ).getD i 0 := by
  have h : ∀ i, i < 3 → pivot ([0, 1, 1] : List ℚ) [2, 2, 2] [1, 1, 0] i ≠ 0 := by
    intro i hi
    interval_cases i <;> norm_num [pivot, cprime]
  exact ⟨h, thomas_solves_system 3 _ _ _ _ (by decide) rfl rfl rfl rfl h⟩

/-- C2: for a strictly diagonally dominant tridiagonal system over an ordered field (the
reals in particular), `|b[i]| > |a[i]| + |c[i]|` in every row with `a[0]` and `c[n-1]`
counted as absent, no pivot of `thomas` is zero, `thomas` returns a vector of length `n`,
and substituting it into the tridiagonal equations gives back `d` exactly. -/
theorem thomas_diag_dominant {F : Type} [LinearOrderedField F] (n : Nat) (a b c d : List F)
    (hn : 1 ≤ n) (ha : a.length = n) (hb : b.length = n) (hc : c.length = n)
    (hd : d.length = n)
    (hdom : ∀ i, i < n → (if i = 0 then 0 else |a.getD i 0|) +
      (if i + 1 < n then |c.getD i 0| else 0) < |b.getD i 0|) :
    (∀ i, i < n → pivot a b c i ≠ 0) ∧
    ∃ y, thomas a b c d = some y ∧ y.length = n ∧
      ∀ i, i < n → row_lhs a b c y i = d.getD i 0 := by
  have hp := pivot_ne_zero_of_dominant a b c n hdom
  subst hd
  exact ⟨hp, thomas_sol a b c d, thomas_eq a b c d hn ha hb hc, length_thomas_sol a b c d,
    thomas_sol_row a b c d hp⟩

theorem thomas_diag_dominant_witness :
    (∀ i, i < 2 → (if i = 0 then 0 else |([5, 1] : List ℚ).getD i 0|) +
      (if i + 1 < 2 then |([-1, 7] : List ℚ).getD i 0| else 0) <
        |([3, -4] : List ℚ).getD i 0|) ∧
    ((∀ i, i < 2 → pivot ([5, 1] : List ℚ) [3, -4] [-1, 7] i ≠ 0) ∧
    ∃ y, thomas ([5, 1] : List ℚ) [3, -4] [-1, 7] [2, 9] = some y ∧ y.length = 2 ∧
      ∀ i, i < 2 → row_lhs ([5, 1] : List ℚ) [3, -4] [-1, 7] y i =
        ([2, 9] : List ℚ).getD i 0) := by
  have h : ∀ i, i < 2 → (if i = 0 then 0 else |([5, 1] : List ℚ).getD i 0|) +
      (if i + 1 < 2 then |([-1, 7] : List ℚ).getD i 0| else 0) <
        |([3, -4] : List ℚ).getD i 0| := by
    intro i hi
    interval_cases i <;> norm_num [abs_of_pos, abs_of_neg]
  exact ⟨h, thomas_diag_dominant 2 _ _ _ _ (by decide) rfl rfl rfl rfl h⟩

/-- C3: in exact arithmetic `thomas` maps `a = [0,1,1]`, `b = [2,2,2]`, `c = [1,1,0]`,
`d = [3,4,3]` to `y = [1,1,1]`. -/
theorem thomas_hand_example :
    thomas ([0, 1, 1] : List ℚ) [2, 2, 2] [1, 1, 0] [3, 4, 3] = some [1, 1, 1] := by
  rw [thomas_three]
  norm_num

/-- C10: for `n ≥ 1` and inputs of length `n`, the result of `thomas` does not depend on
`a[0]` nor on `c[n-1]`: overwriting them with any values `x` and `z` gives the same
output, for `n = 1` as well as for `n ≥ 2`. -/
theorem thomas_ignores_ends (n : Nat) (a b c d : List K) (x z : K) (hn : 1 ≤ n)
    (ha : a.length = n) (hb : b.length = n) (hc : c.length = n) (hd : d.length = n) :
    thomas (a.set 0 x) b (c.set (n - 1) z) d = thomas a b c d := by
  subst hd
  rw [thomas_eq a b c d hn ha hb hc,
    thomas_eq (a.set 0 x) b (c.set (d.length - 1) z) d hn (by simp [ha]) hb (by simp [hc]),
    thomas_sol_ignores_ends]

theorem thomas_ignores_ends_witness :
    thomas (([1] : List ℚ).set 0 7) [2] (([3] : List ℚ).set (1 - 1) 9) [4] =
      thomas ([1] : List ℚ) [2] [3] [4] :=
  thomas_ignores_ends 1 [1] [2] [3] [4] 7 9 (Nat.le_refl 1) rfl rfl rfl rfl

/-! ## The coefficient calculator: claims -/

/-- C4: with `alpha = diffusion_coeff/dx²` and `beta = convection_coeff/(2·dx)` the six
functions return `A1 = dt·(1-theta)·(beta-alpha)`, `A2 = 1-(1-theta)·dt·(r-2·alpha)`,
`A3 = -dt·(1-theta)·(beta+alpha)`, `B1 = dt·theta·(alpha-beta)`,
`B2 = 1+theta·dt·(r-2·alpha)` and `B3 = dt·theta·(beta+alpha)`, where `r = rate(s,t)`,
for every `dt`, `theta` and `dx ≠ 0` (no hypothesis on `dx` is needed for the identities). -/
theorem stencil_coefficients (self : fdm K) (p : pde K) (s t : K) :
    a1 self p s t = self.m_dt * (1 - self.m_theta) *
      (p.conv_coeff / (2 * self.m_dx) - p.diff_coeff / self.m_dx ^ 2) ∧
    a2 self p s t = 1 - (1 - self.m_theta) * self.m_dt *
      (self.m_r s t - 2 * (p.diff_coeff / self.m_dx ^ 2)) ∧
    a3 self p s t = -(self.m_dt * (1 - self.m_theta) *
      (p.conv_coeff / (2 * self.m_dx) + p.diff_coeff / self.m_dx ^ 2)) ∧
    b1 self p s t = self.m_dt * self.m_theta *
      (p.diff_coeff / self.m_dx ^ 2 - p.conv_coeff / (2 * self.m_dx)) ∧
    b2 self p s t = 1 + self.m_theta * self.m_dt *
      (self.m_r s t - 2 * (p.diff_coeff / self.m_dx ^ 2)) ∧
    b3 self p s t = self.m_dt * self.m_theta *
      (p.conv_coeff / (2 * self.m_dx) + p.diff_coeff / self.m_dx ^ 2) := by
  refine ⟨rfl, rfl, ?_, rfl, rfl, rfl⟩
  simp only [a3]
  ring

/-! ## The grid marcher: claims -/

/-- C7: for `N ≥ 2` and any coefficients and rate, if `f0 = 0` and `fN = 0` then the
boundary correction `C` that `get_price` builds from its terminal-time coefficient
vectors is zero at every index; for `N ≥ 3`, where `get_price` goes on to the time loop,
this is the vector `C` of the state on entry to the loop. -/
theorem boundary_correction_zero (self : fdm K) (exp : K → K) (p : pde K) (opt : interface K)
    (payoff : K → K) (sb : Space_boundaries K) (tb : Time_boundaries K)
    (hN : 2 ≤ sb.space_mesh self.m_dx opt) (h0 : self.m_f0 = 0) (h1 : self.m_fN = 0) :
    (∃ m s, coeff_loop self p opt.maturity 0 (sb.space_mesh self.m_dx opt - 1)
        (⟨List.replicate (sb.space_mesh self.m_dx opt - 1) 0,
          List.replicate (sb.space_mesh self.m_dx opt - 1) 0,
          List.replicate (sb.space_mesh self.m_dx opt - 1) 0,
          List.replicate (sb.space_mesh self.m_dx opt - 1) 0,
          List.replicate (sb.space_mesh self.m_dx opt - 1) 0,
          List.replicate (sb.space_mesh self.m_dx opt - 1) 0⟩,
          exp (sb.s_boundary_right opt.spot opt.vol opt.maturity)) = some (m, s) ∧
      build_C self exp (sb.space_mesh self.m_dx opt) opt.rate m =
        some (List.replicate (sb.space_mesh self.m_dx opt - 1) 0)) ∧
    (3 ≤ sb.space_mesh self.m_dx opt →
      ∃ st, get_price_init self exp p opt payoff sb tb = some st ∧
        st.C = List.replicate (sb.space_mesh self.m_dx opt - 1) 0) := by
  generalize hNN : sb.space_mesh self.m_dx opt = N at hN
  have hz : (List.replicate (N - 1) (0 : K)).length = N - 1 := List.length_replicate _ _
  have key : ∀ m : stencil K, stencil_len (N - 1) m →
      build_C self exp N opt.rate m = some (List.replicate (N - 1) 0) := by
    intro m hm
    obtain ⟨l1, l2, l3, l4, l5, l6⟩ := hm
    rw [build_C_eq self exp N opt.rate m hN l1 l4 l3 l6, h0, h1, mul_zero, mul_zero,
      List.set_replicate_self, List.set_replicate_self]
  constructor
  · obtain ⟨m1, hcl, hfill⟩ := coeff_loop_full self p opt.maturity
      (exp (sb.s_boundary_right opt.spot opt.vol opt.maturity)) (N - 1)
      ⟨List.replicate (N - 1) 0, List.replicate (N - 1) 0, List.replicate (N - 1) 0,
        List.replicate (N - 1) 0, List.replicate (N - 1) 0, List.replicate (N - 1) 0⟩
      ⟨hz, hz, hz, hz, hz, hz⟩
    exact ⟨m1, _, hcl, key m1 hfill.1⟩
  · intro h3
    obtain ⟨st, hst, hinv, -, -, hC, -, -⟩ :=
      get_price_init_spec self exp p opt payoff sb tb (by omega)
    rw [hNN] at hC hinv
    refine ⟨st, hst, ?_⟩
    have := key st.m hinv.1
    rw [hC] at this
    exact Option.some.inj this

/-- C8: for `N ≥ 3`, `get_price` reaches the time loop and leaves it; the boundary
correction `C` built before the loop has length `N-1`, is computed from the terminal-time
coefficient vectors (index `j` evaluated at time `maturity` and coordinate
`exp(Smax) - j·dx`), with `C[0] = (A1[0] - B1[0]·exp(-r0·dt))·f0`,
`C[N-2] = (A3[N-2] - B3[N-2]·exp(-r0·dt))·fN` and `C[i] = 0` for `0 < i < N-2`; no time
step writes to `C`, and the state on exit from the loop holds the same `C`. -/
theorem boundary_correction_ends (self : fdm K) (exp : K → K) (p : pde K) (opt : interface K)
    (payoff : K → K) (sb : Space_boundaries K) (tb : Time_boundaries K)
    (hN : 3 ≤ sb.space_mesh self.m_dx opt) :
    ∃ st0 st, get_price_init self exp p opt payoff sb tb = some st0 ∧
      get_price_march self exp p opt payoff sb tb = some st ∧
      stencil_filled self p opt.maturity
        (exp (sb.s_boundary_right opt.spot opt.vol opt.maturity))
        (sb.space_mesh self.m_dx opt - 1) (sb.space_mesh self.m_dx opt - 1) st0.m ∧
      st0.C.length = sb.space_mesh self.m_dx opt - 1 ∧
      st0.C.getD 0 0 =
        (st0.m.A1.getD 0 0 - st0.m.B1.getD 0 0 * exp (-opt.rate * self.m_dt)) * self.m_f0 ∧
      st0.C.getD (sb.space_mesh self.m_dx opt - 2) 0 =
        (st0.m.A3.getD (sb.space_mesh self.m_dx opt - 2) 0 -
          st0.m.B3.getD (sb.space_mesh self.m_dx opt - 2) 0 * exp (-opt.rate * self.m_dt)) *
            self.m_fN ∧
      (∀ i, 0 < i → i < sb.space_mesh self.m_dx opt - 2 → st0.C.getD i 0 = 0) ∧
      (∀ (t : K) (s1 s2 : march_state K),
        time_step self p (sb.space_mesh self.m_dx opt) t s1 = some s2 → s2.C = s1.C) ∧
      st.C = st0.C := by
  obtain ⟨st0, st, h0, h1, -, hC, -⟩ := get_price_march_spec self exp p opt payoff sb tb hN
  obtain ⟨st0', h0', hinv, -, hfill, hbC, -, -⟩ :=
    get_price_init_spec self exp p opt payoff sb tb hN
  rw [h0] at h0'
  cases h0'
  generalize sb.space_mesh self.m_dx opt = N at *
  obtain ⟨⟨l1, l2, l3, l4, l5, l6⟩, hval⟩ := hfill
  rw [build_C_eq self exp N opt.rate st0.m (by omega) l1 l4 l3 l6] at hbC
  have hCe := (Option.some.inj hbC).symm
  have hz : (List.replicate (N - 1) (0 : K)).length = N - 1 := List.length_replicate _ _
  refine ⟨st0, st, h0, h1, ⟨⟨l1, l2, l3, l4, l5, l6⟩, hval⟩, hinv.2.1, ?_, ?_, ?_,
    fun t s1 s2 h => time_step_C self p N t s1 s2 h, hC⟩
  · rw [hCe, getD_set_ne _ _ _ _ (by omega), getD_set_self _ _ _ (by omega)]
  · rw [hCe, getD_set_self _ _ _ (by simp; omega)]
  · intro i hi1 hi2
    rw [hCe, getD_set_ne _ _ _ _ (by omega), getD_set_ne _ _ _ _ (by omega)]
    have hi3 : i < N - 1 := by omega
    simp [List.getD, List.getElem?_replicate, hi3]

theorem boundary_correction_zero_witness :
    ∃ m s, coeff_loop (⟨fun _ _ => 0, 0, 0, 1, 1, 1 / 2⟩ : fdm ℝ) ⟨1 / 2, 0⟩ 1 0 1
        (⟨[0], [0], [0], [0], [0], [0]⟩, Real.exp 0) = some (m, s) ∧
      build_C (⟨fun _ _ => 0, 0, 0, 1, 1, 1 / 2⟩ : fdm ℝ) Real.exp 2 0 m = some [0] :=
  (boundary_correction_zero (⟨fun _ _ => 0, 0, 0, 1, 1, 1 / 2⟩ : fdm ℝ) Real.exp ⟨1 / 2, 0⟩
    ⟨1, 0, 1, 0⟩ (fun x => x) ⟨fun _ _ => 2, fun _ _ _ => 0⟩
    ⟨fun _ _ => 1, fun x => x, fun _ => 0⟩ (Nat.le_refl 2) rfl rfl).1

theorem boundary_correction_ends_witness :
    ∃ st0 st,
      get_price_init (⟨fun _ _ => 0, 2, 0, 1, 1, 1 / 2⟩ : fdm ℝ) Real.exp ⟨1 / 2, 0⟩
        ⟨1, 0, 1, 0⟩ (fun x => x) ⟨fun _ _ => 3, fun _ _ _ => 0⟩
        ⟨fun _ _ => 1, fun x => x, fun _ => 0⟩ = some st0 ∧
      get_price_march (⟨fun _ _ => 0, 2, 0, 1, 1, 1 / 2⟩ : fdm ℝ) Real.exp ⟨1 / 2, 0⟩
        ⟨1, 0, 1, 0⟩ (fun x => x) ⟨fun _ _ => 3, fun _ _ _ => 0⟩
        ⟨fun _ _ => 1, fun x => x, fun _ => 0⟩ = some st ∧
      st0.C.length = 2 ∧ st.C = st0.C := by
  obtain ⟨st0, st, h0, h1, -, hl, -, -, -, -, hC⟩ :=
    boundary_correction_ends (⟨fun _ _ => 0, 2, 0, 1, 1, 1 / 2⟩ : fdm ℝ) Real.exp ⟨1 / 2, 0⟩
      ⟨1, 0, 1, 0⟩ (fun x => x) ⟨fun _ _ => 3, fun _ _ _ => 0⟩
      ⟨fun _ _ => 1, fun x => x, fun _ => 0⟩ (Nat.le_refl 3)
  exact ⟨st0, st, h0, h1, hl, hC⟩

/-- C9, evaluated at a mesh with `N = 2`, `T = 1`, `dx = 1`, `dt = 1`: the price query
reaches the out-of-range branch (the read `F[1]` of line 135 on a vector of size `1`) and
returns no price. -/
theorem get_price_out_of_range :
    get_price (⟨fun _ _ => 0, 0, 0, 1, 1, 1 / 2⟩ : fdm ℝ) Real.exp ⟨1 / 2, 0⟩
      ⟨1, 0, 1, 0⟩ (fun x => x) ⟨fun _ _ => 2, fun _ _ _ => 0⟩
      ⟨fun _ _ => 1, fun x => x, fun _ => 0⟩ = none :=
  get_price_two _ _ _ _ _ _ _ rfl

/-- C6, evaluated at a mesh with `N = 3`, `T = 2`, `dx = 1`, `dt = 1`, `theta = 0`,
`Smax = 0` and the rate `rate(s,t) = s`, so that `a2(s,t) = 1 - s`: the march succeeds,
and in the second time step (`t = 0`) the coefficient `A2[0]` is evaluated at the
coordinate `exp(0) - 2 = -1` (value `2`), not at the starting coordinate `exp(0) = 1`
(value `0`): the coordinate is not reset between time steps. -/
theorem coordinate_not_reset :
    ∃ st, get_price_march (⟨fun s _ => s, 0, 0, 1, 1, 0⟩ : fdm ℝ) Real.exp ⟨0, 0⟩
        ⟨1, 0, 1, 0⟩ (fun x => x) ⟨fun _ _ => 3, fun _ _ _ => 0⟩
        ⟨fun _ _ => 2, fun x => x, fun _ => 0⟩ = some st ∧
      st.m.A2.getD 0 0 = 2 ∧
      a2 (⟨fun s _ => s, 0, 0, 1, 1, 0⟩ : fdm ℝ) ⟨0, 0⟩ (Real.exp 0) 0 = 0 := by
  obtain ⟨st0, st, -, h1, -, -, hfill⟩ :=
    get_price_march_spec (⟨fun s _ => s, 0, 0, 1, 1, 0⟩ : fdm ℝ) Real.exp ⟨0, 0⟩
      ⟨1, 0, 1, 0⟩ (fun x => x) ⟨fun _ _ => 3, fun _ _ _ => 0⟩
      ⟨fun _ _ => 2, fun x => x, fun _ => 0⟩ (Nat.le_refl 3)
  refine ⟨st, h1, ?_, ?_⟩
  · have h := ((hfill (by decide)).2 0 (by decide)).2.1
    rw [h]
    norm_num [a2, Real.exp_zero]
  · norm_num [a2, Real.exp_zero]

/-- C5, evaluated at a mesh with `N = 3`, `T = 1`, `dx = 1`, `dt = 1`, `theta = 1/2`,
diffusion `1/2`, no convection, zero rate, `f0 = 2`, `fN = 0` and payoff value `1`: the
solve gives `F = [-1, 3]`, and the rebuilt last row is
`D[1] = A1[1]·F[1] + A2[1]·F[1] + C[1] = 15/4`, whereas the row
`A1[1]·F[0] + A2[1]·F[1] + C[1]` of the claim is `19/4`. -/
theorem rhs_last_row_wrong_neighbour :
    ∃ st, get_price_march (⟨fun _ _ => 0, 2, 0, 1, 1, 1 / 2⟩ : fdm ℝ) Real.exp ⟨1 / 2, 0⟩
        ⟨1, 0, 1, 0⟩ (fun x => x) ⟨fun _ _ => 3, fun _ _ _ => 0⟩
        ⟨fun _ _ => 1, fun x => x, fun _ => 0⟩ = some st ∧
      st.F = [-1, 3] ∧ st.D.getD 1 0 = 15 / 4 ∧
      st.m.A1.getD 1 0 * st.F.getD 0 0 + st.m.A2.getD 1 0 * st.F.getD 1 0 +
        st.C.getD 1 0 = 19 / 4 := by
  have h := march_three_one (⟨fun _ _ => 0, 2, 0, 1, 1, 1 / 2⟩ : fdm ℝ) Real.exp ⟨1 / 2, 0⟩
    ⟨1, 0, 1, 0⟩ (fun x => x) ⟨fun _ _ => 3, fun _ _ _ => 0⟩
    ⟨fun _ _ => 1, fun x => x, fun _ => 0⟩ rfl rfl
  refine ⟨_, h, ?_, ?_, ?_⟩ <;>
    norm_num [a1, a2, a3, b1, b2, b3, Real.exp_zero]

/-! ## The free store -/

theorem heap_get_lt (h : heap K) (a : Nat) (o : interface K) (ho : heap_get h a = some o) :
    a < h.length := by
  by_contra hlt
  simp [heap_get, List.getElem?_eq_none (Nat.le_of_not_lt hlt)] at ho

theorem heap_get_append (h l : heap K) (a : Nat) (ha : a < h.length) :
    heap_get (h ++ l) a = heap_get h a := by
  simp [heap_get, List.getElem?_append_left ha]

theorem heap_get_append_self (h : heap K) (x : Option (interface K)) :
    heap_get (h ++ [x]) h.length = x := by
  simp [heap_get]

theorem heap_get_set_self (h : heap K) (a : Nat) (x : Option (interface K))
    (ha : a < h.length) : heap_get (h.set a x) a = x := by
  simp [heap_get, List.getElem?_set_self ha]

theorem heap_get_set_ne (h : heap K) (a b : Nat) (x : Option (interface K)) (hab : a ≠ b) :
    heap_get (h.set a x) b = heap_get h b := by
  simp [heap_get, List.getElem?_set_ne hab]

theorem heap_put_eq (h : heap K) (a : Nat) (o : interface K) (v : Option (interface K))
    (ho : heap_get h a = some o) : heap_put h a v = some (h.set a v) := by
  simp [heap_put, ho]

/-- The reads met by a sensitivity estimate while its two copies are alive. -/
theorem two_copies (h : heap K) (opt : Nat) (o op om : interface K)
    (ho : heap_get h opt = some o) :
    heap_get ((h ++ [some o]).set h.length (some op)) opt = some o ∧
    ((h ++ [some o]).set h.length (some op)).length = h.length + 1 ∧
    heap_get ((h ++ [some o]).set h.length (some op) ++ [some o]) (h.length + 1) = some o ∧
    heap_get (((h ++ [some o]).set h.length (some op) ++ [some o]).set (h.length + 1)
      (some om)) h.length = some op ∧
    heap_get (((h ++ [some o]).set h.length (some op) ++ [some o]).set (h.length + 1)
      (some om)) (h.length + 1) = some om ∧
    heap_get (((h ++ [some o]).set h.length (some op) ++ [some o]).set (h.length + 1)
      (some om)) opt = some o ∧
    heap_get ((((h ++ [some o]).set h.length (some op) ++ [some o]).set (h.length + 1)
      (some om)).set h.length none) (h.length + 1) = some om := by
  have hl := heap_get_lt h opt o ho
  have l1 : ((h ++ [some o]).set h.length (some op)).length = h.length + 1 := by simp
  have e2 : heap_get ((h ++ [some o]).set h.length (some op)) opt = some o := by
    rw [heap_get_set_ne _ _ _ _ (by omega), heap_get_append _ _ _ hl, ho]
  refine ⟨e2, l1, ?_, ?_, ?_, ?_, ?_⟩
  · rw [← l1]
    exact heap_get_append_self _ _
  · rw [heap_get_set_ne _ _ _ _ (by omega), heap_get_append _ _ _ (by omega),
      heap_get_set_self _ _ _ (by simp)]
  · exact heap_get_set_self _ _ _ (by simp)
  · rw [heap_get_set_ne _ _ _ _ (by omega), heap_get_append _ _ _ (by omega), e2]
  · rw [heap_get_set_ne _ _ _ _ (by omega)]
    exact heap_get_set_self _ _ _ (by simp)

theorem get_delta_eq (self : fdm K) (exp : K → K) (bs_pde : interface K → pde K) (h : heap K)
    (t_pde : pde K) (opt : Nat) (payoff : K → K) (sb : Space_boundaries K)
    (tb : Time_boundaries K) (o : interface K) (ho : heap_get h opt = some o) :
    get_delta self exp bs_pde h t_pde opt payoff sb tb =
      (get_price self exp (bs_pde ⟨o.spot + 0.01, o.vol, o.maturity, o.rate⟩)
        ⟨o.spot + 0.01, o.vol, o.maturity, o.rate⟩ payoff sb tb).bind fun p_plus =>
      (get_price self exp (bs_pde ⟨o.spot - 0.01, o.vol, o.maturity, o.rate⟩)
        ⟨o.spot - 0.01, o.vol, o.maturity, o.rate⟩ payoff sb tb).bind fun p_minus =>
      some ((p_plus - p_minus) / 0.02,
        heap_after h o ⟨o.spot + 0.01, o.vol, o.maturity, o.rate⟩
          ⟨o.spot - 0.01, o.vol, o.maturity, o.rate⟩) := by
  have e1 : heap_get (h ++ [some o]) h.length = some o := heap_get_append_self h _
  obtain ⟨e2, l1, e3, e4, e5, e6, e7⟩ := two_copies h opt o
    ⟨o.spot + 0.01, o.vol, o.maturity, o.rate⟩ ⟨o.spot - 0.01, o.vol, o.maturity, o.rate⟩ ho
  simp only [get_delta, copy_interface, set_spot, delete_interface, ho, e1, e2, l1, e3, e4, e5,
    e7, Option.bind_eq_bind, Option.some_bind, heap_put_eq _ _ _ _ e1, heap_put_eq _ _ _ _ e3,
    heap_put_eq _ _ _ _ e4, heap_put_eq _ _ _ _ e7, heap_after]

theorem get_gamma_eq (self : fdm K) (exp : K → K) (bs_pde : interface K → pde K) (h : heap K)
    (t_pde : pde K) (opt : Nat) (payoff : K → K) (sb : Space_boundaries K)
    (tb : Time_boundaries K) (o : interface K) (ho : heap_get h opt = some o) :
    get_gamma self exp bs_pde h t_pde opt payoff sb tb =
      (get_price self exp t_pde o payoff sb tb).bind fun p =>
      (get_price self exp (bs_pde ⟨o.spot + 0.01, o.vol, o.maturity, o.rate⟩)
        ⟨o.spot + 0.01, o.vol, o.maturity, o.rate⟩ payoff sb tb).bind fun p_plus =>
      (get_price self exp (bs_pde ⟨o.spot - 0.01, o.vol, o.maturity, o.rate⟩)
        ⟨o.spot - 0.01, o.vol, o.maturity, o.rate⟩ payoff sb tb).bind fun p_minus =>
      some ((p_plus - 2 * p + p_minus) / (0.01 * 0.01),
        heap_after h o ⟨o.spot + 0.01, o.vol, o.maturity, o.rate⟩
          ⟨o.spot - 0.01, o.vol, o.maturity, o.rate⟩) := by
  have e1 : heap_get (h ++ [some o]) h.length = some o := heap_get_append_self h _
  obtain ⟨e2, l1, e3, e4, e5, e6, e7⟩ := two_copies h opt o
    ⟨o.spot + 0.01, o.vol, o.maturity, o.rate⟩ ⟨o.spot - 0.01, o.vol, o.maturity, o.rate⟩ ho
  simp only [get_gamma, copy_interface, set_spot, delete_interface, ho, e1, e2, l1, e3, e4, e5,
    e6, e7, Option.bind_eq_bind, Option.some_bind, heap_put_eq _ _ _ _ e1,
    heap_put_eq _ _ _ _ e3, heap_put_eq _ _ _ _ e4, heap_put_eq _ _ _ _ e7, heap_after]

theorem get_theta_eq (self : fdm K) (exp : K → K) (bs_pde : interface K → pde K) (h : heap K)
    (t_pde : pde K) (opt : Nat) (payoff : K → K) (sb : Space_boundaries K)
    (tb : Time_boundaries K) (o : interface K) (ho : heap_get h opt = some o) :
    get_theta self exp bs_pde h t_pde opt payoff sb tb =
      (get_price self exp (bs_pde ⟨o.spot, o.vol, o.maturity + 0.003, o.rate⟩)
        ⟨o.spot, o.vol, o.maturity + 0.003, o.rate⟩ payoff sb tb).bind fun p_plus =>
      (get_price self exp (bs_pde ⟨o.spot, o.vol, o.maturity - 0.003, o.rate⟩)
        ⟨o.spot, o.vol, o.maturity - 0.003, o.rate⟩ payoff sb tb).bind fun p_minus =>
      some ((p_plus - p_minus) / 0.006,
        heap_after h o ⟨o.spot, o.vol, o.maturity + 0.003, o.rate⟩
          ⟨o.spot, o.vol, o.maturity - 0.003, o.rate⟩) := by
  have e1 : heap_get (h ++ [some o]) h.length = some o := heap_get_append_self h _
  obtain ⟨e2, l1, e3, e4, e5, e6, e7⟩ := two_copies h opt o
    ⟨o.spot, o.vol, o.maturity + 0.003, o.rate⟩ ⟨o.spot, o.vol, o.maturity - 0.003, o.rate⟩ ho
  simp only [get_theta, copy_interface, set_maturity, delete_interface, ho, e1, e2, l1, e3, e4,
    e5, e7, Option.bind_eq_bind, Option.some_bind, heap_put_eq _ _ _ _ e1,
    heap_put_eq _ _ _ _ e3, heap_put_eq _ _ _ _ e4, heap_put_eq _ _ _ _ e7, heap_after]

theorem get_vega_eq (self : fdm K) (exp : K → K) (bs_pde : interface K → pde K) (h : heap K)
    (t_pde : pde K) (opt : Nat) (payoff : K → K) (sb : Space_boundaries K)
    (tb : Time_boundaries K) (o : interface K) (ho : heap_get h opt = some o) :
    get_vega self exp bs_pde h t_pde opt payoff sb tb =
      (get_price self exp (bs_pde ⟨o.spot, o.vol + 0.01, o.maturity, o.rate⟩)
        ⟨o.spot, o.vol + 0.01, o.maturity, o.rate⟩ payoff sb tb).bind fun p_plus =>
      (get_price self exp (bs_pde ⟨o.spot, o.vol - 0.01, o.maturity, o.rate⟩)
        ⟨o.spot, o.vol - 0.01, o.maturity, o.rate⟩ payoff sb tb).bind fun p_minus =>
      some ((p_plus - p_minus) / 0.02,
        heap_after h o ⟨o.spot, o.vol + 0.01, o.maturity, o.rate⟩
          ⟨o.spot, o.vol - 0.01, o.maturity, o.rate⟩) := by
  have e1 : heap_get (h ++ [some o]) h.length = some o := heap_get_append_self h _
  obtain ⟨e2, l1, e3, e4, e5, e6, e7⟩ := two_copies h opt o
    ⟨o.spot, o.vol + 0.01, o.maturity, o.rate⟩ ⟨o.spot, o.vol - 0.01, o.maturity, o.rate⟩ ho
  simp only [get_vega, copy_interface, set_vol, delete_interface, ho, e1, e2, l1, e3, e4,
    e5, e7, Option.bind_eq_bind, Option.some_bind, heap_put_eq _ _ _ _ e1,
    heap_put_eq _ _ _ _ e3, heap_put_eq _ _ _ _ e4, heap_put_eq _ _ _ _ e7, heap_after]

/-- The store left by a sensitivity estimate agrees with the initial store on every pointer
of the caller. -/
theorem heap_after_frame (h : heap K) (o op om : interface K) (a : Nat) (ha : a < h.length) :
    heap_get (heap_after h o op om) a = heap_get h a := by
  unfold heap_after
  rw [heap_get_set_ne _ _ _ _ (by omega), heap_get_set_ne _ _ _ _ (by omega),
    heap_get_set_ne _ _ _ _ (by omega), heap_get_append _ _ _ (by simp; omega),
    heap_get_set_ne _ _ _ _ (by omega), heap_get_append _ _ _ ha]

/-! ## Decimal constants -/

theorem dec_1e2 : (0.01 : K) = 1 / 100 := by
  have h : ((0.01 : ℚ) : K) = (0.01 : K) := by norm_cast
  have h2 : (0.01 : ℚ) = 1 / 100 := by norm_num
  rw [← h, h2, Rat.cast_def]
  norm_num

theorem dec_1e4 : (0.0001 : K) = 1 / 10000 := by
  have h : ((0.0001 : ℚ) : K) = (0.0001 : K) := by norm_cast
  have h2 : (0.0001 : ℚ) = 1 / 10000 := by norm_num
  rw [← h, h2, Rat.cast_def]
  norm_num

theorem dec_sq : (0.01 * 0.01 : K) = 0.0001 := by
  rw [dec_1e2, dec_1e4, div_mul_div_comm]
  norm_num

/-- For `N = 3` and `T = 0` no time step runs and the seeded value is returned. -/
theorem get_price_three_zero (self : fdm K) (exp : K → K) (p : pde K) (opt : interface K)
    (payoff : K → K) (sb : Space_boundaries K) (tb : Time_boundaries K)
    (hN : sb.space_mesh self.m_dx opt = 3) (hT : tb.time_mesh self.m_dt opt = 0) :
    get_price self exp p opt payoff sb tb = some (payoff opt.spot) := by
  simp only [get_price, get_price_march, get_price_init, hN, hT]
  rfl

/-! ## The sensitivity estimator: claims -/

/-- C11: on a live descriptor `o`, `get_gamma` returns
`(price(spot+0.01) - 2·price(spot) + price(spot-0.01)) / 0.0001`, where `price(spot)` is
`get_price` on the unperturbed descriptor with the coefficient provider of the caller and
the two other prices are `get_price` on copies of `o` with only the spot changed, each
with a coefficient provider built from that copy by `bs_pde`; it returns no value exactly
when one of the three price queries returns none. -/
theorem get_gamma_value (self : fdm K) (exp : K → K) (bs_pde : interface K → pde K)
    (h : heap K) (t_pde : pde K) (opt : Nat) (payoff : K → K) (sb : Space_boundaries K)
    (tb : Time_boundaries K) (o : interface K) (ho : heap_get h opt = some o) :
    (get_gamma self exp bs_pde h t_pde opt payoff sb tb).map Prod.fst =
      (get_price self exp t_pde o payoff sb tb).bind fun p =>
      (get_price self exp (bs_pde ⟨o.spot + 0.01, o.vol, o.maturity, o.rate⟩)
        ⟨o.spot + 0.01, o.vol, o.maturity, o.rate⟩ payoff sb tb).bind fun p_plus =>
      (get_price self exp (bs_pde ⟨o.spot - 0.01, o.vol, o.maturity, o.rate⟩)
        ⟨o.spot - 0.01, o.vol, o.maturity, o.rate⟩ payoff sb tb).bind fun p_minus =>
      some ((p_plus - 2 * p + p_minus) / 0.0001) := by
  rw [get_gamma_eq self exp bs_pde h t_pde opt payoff sb tb o ho]
  cases get_price self exp t_pde o payoff sb tb <;>
  cases get_price self exp (bs_pde ⟨o.spot + 0.01, o.vol, o.maturity, o.rate⟩)
    ⟨o.spot + 0.01, o.vol, o.maturity, o.rate⟩ payoff sb tb <;>
  cases get_price self exp (bs_pde ⟨o.spot - 0.01, o.vol, o.maturity, o.rate⟩)
    ⟨o.spot - 0.01, o.vol, o.maturity, o.rate⟩ payoff sb tb <;>
  simp [dec_sq]

/-- C12: on a live descriptor `o`, `get_delta` returns
`(price(spot+0.01) - price(spot-0.01)) / 0.02`, each price being `get_price` on a copy of
`o` with only the spot changed and a coefficient provider built from that copy by
`bs_pde`, with the same payoff and boundary providers. -/
theorem get_delta_value (self : fdm K) (exp : K → K) (bs_pde : interface K → pde K)
    (h : heap K) (t_pde : pde K) (opt : Nat) (payoff : K → K) (sb : Space_boundaries K)
    (tb : Time_boundaries K) (o : interface K) (ho : heap_get h opt = some o) :
    (get_delta self exp bs_pde h t_pde opt payoff sb tb).map Prod.fst =
      (get_price self exp (bs_pde ⟨o.spot + 0.01, o.vol, o.maturity, o.rate⟩)
        ⟨o.spot + 0.01, o.vol, o.maturity, o.rate⟩ payoff sb tb).bind fun p_plus =>
      (get_price self exp (bs_pde ⟨o.spot - 0.01, o.vol, o.maturity, o.rate⟩)
        ⟨o.spot - 0.01, o.vol, o.maturity, o.rate⟩ payoff sb tb).bind fun p_minus =>
      some ((p_plus - p_minus) / 0.02) := by
  rw [get_delta_eq self exp bs_pde h t_pde opt payoff sb tb o ho]
  cases get_price self exp (bs_pde ⟨o.spot + 0.01, o.vol, o.maturity, o.rate⟩)
    ⟨o.spot + 0.01, o.vol, o.maturity, o.rate⟩ payoff sb tb <;>
  cases get_price self exp (bs_pde ⟨o.spot - 0.01, o.vol, o.maturity, o.rate⟩)
    ⟨o.spot - 0.01, o.vol, o.maturity, o.rate⟩ payoff sb tb <;>
  simp

/-- C13: on a live descriptor `o` with maturity `T`, `get_theta` returns
`(price(T+0.003) - price(T-0.003)) / 0.006`, each price being `get_price` on a copy of `o`
with only the maturity changed (and the coefficient provider built from that copy). -/
theorem get_theta_value (self : fdm K) (exp : K → K) (bs_pde : interface K → pde K)
    (h : heap K) (t_pde : pde K) (opt : Nat) (payoff : K → K) (sb : Space_boundaries K)
    (tb : Time_boundaries K) (o : interface K) (ho : heap_get h opt = some o) :
    (get_theta self exp bs_pde h t_pde opt payoff sb tb).map Prod.fst =
      (get_price self exp (bs_pde ⟨o.spot, o.vol, o.maturity + 0.003, o.rate⟩)
        ⟨o.spot, o.vol, o.maturity + 0.003, o.rate⟩ payoff sb tb).bind fun p_plus =>
      (get_price self exp (bs_pde ⟨o.spot, o.vol, o.maturity - 0.003, o.rate⟩)
        ⟨o.spot, o.vol, o.maturity - 0.003, o.rate⟩ payoff sb tb).bind fun p_minus =>
      some ((p_plus - p_minus) / 0.006) := by
  rw [get_theta_eq self exp bs_pde h t_pde opt payoff sb tb o ho]
  cases get_price self exp (bs_pde ⟨o.spot, o.vol, o.maturity + 0.003, o.rate⟩)
    ⟨o.spot, o.vol, o.maturity + 0.003, o.rate⟩ payoff sb tb <;>
  cases get_price self exp (bs_pde ⟨o.spot, o.vol, o.maturity - 0.003, o.rate⟩)
    ⟨o.spot, o.vol, o.maturity - 0.003, o.rate⟩ payoff sb tb <;>
  simp

/-- C14: on a live descriptor `o` with volatility `vol`, `get_vega` returns
`(price(vol+0.01) - price(vol-0.01)) / 0.02`, each price being `get_price` on a copy of `o`
whose volatility is overridden by the constant `vol+0.01` (resp. `vol-0.01`), with a
coefficient provider built from that copy by `bs_pde`. -/
theorem get_vega_value (self : fdm K) (exp : K → K) (bs_pde : interface K → pde K)
    (h : heap K) (t_pde : pde K) (opt : Nat) (payoff : K → K) (sb : Space_boundaries K)
    (tb : Time_boundaries K) (o : interface K) (ho : heap_get h opt = some o) :
    (get_vega self exp bs_pde h t_pde opt payoff sb tb).map Prod.fst =
      (get_price self exp (bs_pde ⟨o.spot, o.vol + 0.01, o.maturity, o.rate⟩)
        ⟨o.spot, o.vol + 0.01, o.maturity, o.rate⟩ payoff sb tb).bind fun p_plus =>
      (get_price self exp (bs_pde ⟨o.spot, o.vol - 0.01, o.maturity, o.rate⟩)
        ⟨o.spot, o.vol - 0.01, o.maturity, o.rate⟩ payoff sb tb).bind fun p_minus =>
      some ((p_plus - p_minus) / 0.02) := by
  rw [get_vega_eq self exp bs_pde h t_pde opt payoff sb tb o ho]
  cases get_price self exp (bs_pde ⟨o.spot, o.vol + 0.01, o.maturity, o.rate⟩)
    ⟨o.spot, o.vol + 0.01, o.maturity, o.rate⟩ payoff sb tb <;>
  cases get_price self exp (bs_pde ⟨o.spot, o.vol - 0.01, o.maturity, o.rate⟩)
    ⟨o.spot, o.vol - 0.01, o.maturity, o.rate⟩ payoff sb tb <;>
  simp

theorem get_gamma_value_witness :
    heap_get ([some ⟨1, 0, 1, 0⟩] : heap ℝ) 0 = some ⟨1, 0, 1, 0⟩ ∧
    (get_gamma (⟨fun _ _ => 0, 0, 0, 1, 1, 1 / 2⟩ : fdm ℝ) Real.exp (fun o => ⟨o.vol, o.rate⟩)
      [some ⟨1, 0, 1, 0⟩] ⟨0, 0⟩ 0 (fun x => x ^ 2) ⟨fun _ _ => 3, fun _ _ _ => 0⟩
      ⟨fun _ _ => 0, fun x => x, fun _ => 0⟩).map Prod.fst = some 2 := by
  refine ⟨rfl, ?_⟩
  rw [get_gamma_value (⟨fun _ _ => 0, 0, 0, 1, 1, 1 / 2⟩ : fdm ℝ) Real.exp
    (fun o => ⟨o.vol, o.rate⟩) [some ⟨1, 0, 1, 0⟩] ⟨0, 0⟩ 0 (fun x => x ^ 2)
    ⟨fun _ _ => 3, fun _ _ _ => 0⟩ ⟨fun _ _ => 0, fun x => x, fun _ => 0⟩ ⟨1, 0, 1, 0⟩ rfl,
    get_price_three_zero _ _ _ _ _ _ _ rfl rfl, get_price_three_zero _ _ _ _ _ _ _ rfl rfl,
    get_price_three_zero _ _ _ _ _ _ _ rfl rfl]
  norm_num

theorem get_delta_value_witness :
    heap_get ([some ⟨1, 0, 1, 0⟩] : heap ℝ) 0 = some ⟨1, 0, 1, 0⟩ ∧
    (get_delta (⟨fun _ _ => 0, 0, 0, 1, 1, 1 / 2⟩ : fdm ℝ) Real.exp (fun o => ⟨o.vol, o.rate⟩)
      [some ⟨1, 0, 1, 0⟩] ⟨0, 0⟩ 0 (fun x => x) ⟨fun _ _ => 3, fun _ _ _ => 0⟩
      ⟨fun _ _ => 0, fun x => x, fun _ => 0⟩).map Prod.fst = some 1 := by
  refine ⟨rfl, ?_⟩
  rw [get_delta_value (⟨fun _ _ => 0, 0, 0, 1, 1, 1 / 2⟩ : fdm ℝ) Real.exp
    (fun o => ⟨o.vol, o.rate⟩) [some ⟨1, 0, 1, 0⟩] ⟨0, 0⟩ 0 (fun x => x)
    ⟨fun _ _ => 3, fun _ _ _ => 0⟩ ⟨fun _ _ => 0, fun x => x, fun _ => 0⟩ ⟨1, 0, 1, 0⟩ rfl,
    get_price_three_zero _ _ _ _ _ _ _ rfl rfl, get_price_three_zero _ _ _ _ _ _ _ rfl rfl]
  norm_num

theorem get_theta_value_witness :
    heap_get ([some ⟨1, 0, 1, 0⟩] : heap ℝ) 0 = some ⟨1, 0, 1, 0⟩ ∧
    (get_theta (⟨fun _ _ => 0, 0, 0, 1, 1, 1 / 2⟩ : fdm ℝ) Real.exp (fun o => ⟨o.vol, o.rate⟩)
      [some ⟨1, 0, 1, 0⟩] ⟨0, 0⟩ 0 (fun x => x) ⟨fun _ _ => 3, fun _ _ _ => 0⟩
      ⟨fun _ _ => 0, fun x => x, fun _ => 0⟩).map Prod.fst = some 0 := by
  refine ⟨rfl, ?_⟩
  rw [get_theta_value (⟨fun _ _ => 0, 0, 0, 1, 1, 1 / 2⟩ : fdm ℝ) Real.exp
    (fun o => ⟨o.vol, o.rate⟩) [some ⟨1, 0, 1, 0⟩] ⟨0, 0⟩ 0 (fun x => x)
    ⟨fun _ _ => 3, fun _ _ _ => 0⟩ ⟨fun _ _ => 0, fun x => x, fun _ => 0⟩ ⟨1, 0, 1, 0⟩ rfl,
    get_price_three_zero _ _ _ _ _ _ _ rfl rfl, get_price_three_zero _ _ _ _ _ _ _ rfl rfl]
  norm_num

theorem get_vega_value_witness :
    heap_get ([some ⟨1, 0, 1, 0⟩] : heap ℝ) 0 = some ⟨1, 0, 1, 0⟩ ∧
    (get_vega (⟨fun _ _ => 0, 0, 0, 1, 1, 1 / 2⟩ : fdm ℝ) Real.exp (fun o => ⟨o.vol, o.rate⟩)
      [some ⟨1, 0, 1, 0⟩] ⟨0, 0⟩ 0 (fun x => x) ⟨fun _ _ => 3, fun _ _ _ => 0⟩
      ⟨fun _ _ => 0, fun x => x, fun _ => 0⟩).map Prod.fst = some 0 := by
  refine ⟨rfl, ?_⟩
  rw [get_vega_value (⟨fun _ _ => 0, 0, 0, 1, 1, 1 / 2⟩ : fdm ℝ) Real.exp
    (fun o => ⟨o.vol, o.rate⟩) [some ⟨1, 0, 1, 0⟩] ⟨0, 0⟩ 0 (fun x => x)
    ⟨fun _ _ => 3, fun _ _ _ => 0⟩ ⟨fun _ _ => 0, fun x => x, fun _ => 0⟩ ⟨1, 0, 1, 0⟩ rfl,
    get_price_three_zero _ _ _ _ _ _ _ rfl rfl, get_price_three_zero _ _ _ _ _ _ _ rfl rfl]
  norm_num

theorem frame_kept_of_eq (h : heap K) (opt : Nat) (o op om : interface K)
    (ho : heap_get h opt = some o) (x y : Option K) (f : K → K → K) :
    frame_kept h opt o
      (x.bind fun u => y.bind fun v => some (f u v, heap_after h o op om)) := by
  intro r hr
  simp only [Option.bind_eq_some] at hr
  obtain ⟨u, -, v, -, hr⟩ := hr
  cases hr
  exact ⟨by rw [heap_after_frame h o op om opt (heap_get_lt h opt o ho), ho],
    fun a ha => heap_after_frame h o op om a ha⟩

/-- C15: each of `get_delta`, `get_gamma`, `get_theta` and `get_vega`, called on a live
descriptor `o` behind the pointer `opt`, leaves `o` behind `opt` when it returns (same
spot, volatility, maturity and rate), and leaves every other object of the caller as it
was: the perturbations are written to the two fresh copies only. -/
theorem greeks_keep_descriptor (self : fdm K) (exp : K → K) (bs_pde : interface K → pde K)
    (h : heap K) (t_pde : pde K) (opt : Nat) (payoff : K → K) (sb : Space_boundaries K)
    (tb : Time_boundaries K) (o : interface K) (ho : heap_get h opt = some o) :
    frame_kept h opt o (get_delta self exp bs_pde h t_pde opt payoff sb tb) ∧
    frame_kept h opt o (get_gamma self exp bs_pde h t_pde opt payoff sb tb) ∧
    frame_kept h opt o (get_theta self exp bs_pde h t_pde opt payoff sb tb) ∧
    frame_kept h opt o (get_vega self exp bs_pde h t_pde opt payoff sb tb) := by
  refine ⟨?_, ?_, ?_, ?_⟩
  · rw [get_delta_eq self exp bs_pde h t_pde opt payoff sb tb o ho]
    exact frame_kept_of_eq h opt o _ _ ho _ _ (fun u v => (u - v) / 0.02)
  · rw [get_gamma_eq self exp bs_pde h t_pde opt payoff sb tb o ho]
    intro r hr
    simp only [Option.bind_eq_some] at hr
    obtain ⟨u, -, v, -, w, -, hr⟩ := hr
    cases hr
    exact ⟨by rw [heap_after_frame h o _ _ opt (heap_get_lt h opt o ho), ho],
      fun a ha => heap_after_frame h o _ _ a ha⟩
  · rw [get_theta_eq self exp bs_pde h t_pde opt payoff sb tb o ho]
    exact frame_kept_of_eq h opt o _ _ ho _ _ (fun u v => (u - v) / 0.006)
  · rw [get_vega_eq self exp bs_pde h t_pde opt payoff sb tb o ho]
    exact frame_kept_of_eq h opt o _ _ ho _ _ (fun u v => (u - v) / 0.02)

theorem greeks_keep_descriptor_witness :
    heap_get ([some ⟨1, 0, 1, 0⟩] : heap ℝ) 0 = some ⟨1, 0, 1, 0⟩ ∧
    ∃ r, get_delta (⟨fun _ _ => 0, 0, 0, 1, 1, 1 / 2⟩ : fdm ℝ) Real.exp
      (fun o => ⟨o.vol, o.rate⟩) [some ⟨1, 0, 1, 0⟩] ⟨0, 0⟩ 0 (fun x => x)
      ⟨fun _ _ => 3, fun _ _ _ => 0⟩ ⟨fun _ _ => 0, fun x => x, fun _ => 0⟩ = some r ∧
      heap_get r.2 0 = some ⟨1, 0, 1, 0⟩ := by
  refine ⟨rfl, ?_⟩
  have hr := get_delta_eq (⟨fun _ _ => 0, 0, 0, 1, 1, 1 / 2⟩ : fdm ℝ) Real.exp
    (fun o => ⟨o.vol, o.rate⟩) [some ⟨1, 0, 1, 0⟩] ⟨0, 0⟩ 0 (fun x => x)
    ⟨fun _ _ => 3, fun _ _ _ => 0⟩ ⟨fun _ _ => 0, fun x => x, fun _ => 0⟩ ⟨1, 0, 1, 0⟩ rfl
  rw [get_price_three_zero _ _ _ _ _ _ _ rfl rfl, get_price_three_zero _ _ _ _ _ _ _ rfl rfl]
    at hr
  exact ⟨_, hr, ((greeks_keep_descriptor (⟨fun _ _ => 0, 0, 0, 1, 1, 1 / 2⟩ : fdm ℝ) Real.exp
    (fun o => ⟨o.vol, o.rate⟩) [some ⟨1, 0, 1, 0⟩] ⟨0, 0⟩ 0 (fun x => x)
    ⟨fun _ _ => 3, fun _ _ _ => 0⟩ ⟨fun _ _ => 0, fun x => x, fun _ => 0⟩ ⟨1, 0, 1, 0⟩
    rfl).1 _ hr).1⟩

/-! ## The march, step by step -/

theorem march_trace_spec (self : fdm K) (p : pde K) (N : Nat) (hN : 3 ≤ N) :
    ∀ (T : Nat) (st : march_state K), march_inv N st →
      ∃ tr, march_trace self p N T st = some tr ∧ tr.length = T ∧
        time_loop self p N T st = some (tr.getLast?.getD st) ∧
        (∀ s, s ∈ tr → march_inv N s) ∧
        List.Chain (fun a b => thomas b.m.B1 b.m.B2 b.m.B3 a.D = some b.F) st tr := by
  intro T
  induction T with
  | zero =>
    intro st _
    exact ⟨[], rfl, rfl, rfl, fun s hs => absurd hs (List.not_mem_nil s), List.Chain.nil⟩
  | succ T ih =>
    intro st hst
    obtain ⟨st1, h1, hinv1, -, -, hfill, hF, -⟩ := time_step_spec self p N (T : K) st hN hst
    obtain ⟨tr, htr, hlen, hloop, hall, hchain⟩ := ih st1 hinv1
    have hth : thomas st1.m.B1 st1.m.B2 st1.m.B3 st.D = some st1.F := by
      obtain ⟨-, -, -, l4, l5, l6⟩ := hinv1.1
      rw [hF]
      exact thomas_eq _ _ _ _ (by rw [hst.2.2.2]; omega) (by rw [l4, hst.2.2.2])
        (by rw [l5, hst.2.2.2]) (by rw [l6, hst.2.2.2])
    refine ⟨st1 :: tr, ?_, by simp [hlen], ?_, ?_, List.Chain.cons hth hchain⟩
    · simp only [march_trace]
      rw [h1]
      simp only [Option.bind_eq_bind, Option.some_bind]
      rw [htr]
      simp only [Option.some_bind]
    · simp only [time_loop]
      rw [h1]
      simp only [Option.bind_eq_bind, Option.some_bind]
      rw [hloop, List.getLast?_cons]
      rfl
    · intro s hs
      rcases List.mem_cons.mp hs with rfl | hs
      · exact hinv1
      · exact hall s hs

/-! ## The grid marcher: further claims -/

/-- The whole run of `get_price` for `N ≥ 3`, step by step. -/
theorem get_price_run_spec (self : fdm K) (exp : K → K) (p : pde K) (opt : interface K)
    (payoff : K → K) (sb : Space_boundaries K) (tb : Time_boundaries K)
    (hN : 3 ≤ sb.space_mesh self.m_dx opt) :
    ∃ st0 tr st, get_price_init self exp p opt payoff sb tb = some st0 ∧
      march_trace self p (sb.space_mesh self.m_dx opt) (tb.time_mesh self.m_dt opt) st0 =
        some tr ∧
      tr.length = tb.time_mesh self.m_dt opt ∧
      List.Chain (fun a b => thomas b.m.B1 b.m.B2 b.m.B3 a.D = some b.F) st0 tr ∧
      (∀ s, s ∈ tr → s.F.length = sb.space_mesh self.m_dx opt - 1 ∧
        s.D.length = sb.space_mesh self.m_dx opt - 1) ∧
      get_price_march self exp p opt payoff sb tb = some st ∧
      st = tr.getLast?.getD st0 ∧
      get_price self exp p opt payoff sb tb =
        some (st.F.getD (sb.space_mesh self.m_dx opt - 2) 0) ∧
      (tb.time_mesh self.m_dt opt = 0 →
        get_price self exp p opt payoff sb tb = some (payoff opt.spot)) := by
  obtain ⟨st0, h0, hinv0, -, -, -, hF0, -⟩ :=
    get_price_init_spec self exp p opt payoff sb tb hN
  obtain ⟨tr, htr, hlen, hloop, hall, hchain⟩ :=
    march_trace_spec self p _ hN (tb.time_mesh self.m_dt opt) st0 hinv0
  have hm : get_price_march self exp p opt payoff sb tb = some (tr.getLast?.getD st0) := by
    simp only [get_price_march]
    rw [h0]
    simp only [Option.bind_eq_bind, Option.some_bind]
    exact hloop
  have hinv : march_inv (sb.space_mesh self.m_dx opt) (tr.getLast?.getD st0) := by
    cases hl : tr.getLast? with
    | none => exact hinv0
    | some s => exact hall s (List.mem_of_getLast?_eq_some hl)
  have hg : get_price self exp p opt payoff sb tb =
      some ((tr.getLast?.getD st0).F.getD (sb.space_mesh self.m_dx opt - 2) 0) := by
    simp only [get_price]
    rw [hm]
    simp only [Option.bind_eq_bind, Option.some_bind]
    rw [vget_of_lt _ _ (by rw [hinv.2.2.1]; omega), hinv.2.2.1]
    rfl
  refine ⟨st0, tr, _, h0, htr, hlen, hchain,
    fun s hs => ⟨(hall s hs).2.2.1, (hall s hs).2.2.2⟩, hm, rfl, hg, ?_⟩
  intro hT
  rw [hg]
  rw [hT] at hlen
  have htr0 : tr = [] := List.length_eq_zero.mp hlen
  subst htr0
  have : sb.space_mesh self.m_dx opt - 2 < sb.space_mesh self.m_dx opt - 1 := by omega
  simp [hF0, List.getD, List.getElem?_replicate, this]

/-- C20: for `N ≥ 3` and every `T ≥ 0`, `get_price` is total: the state on entry to the
time loop exists, the loop runs exactly `T` time steps, each of which makes one call
`F = thomas(B1, B2, B3, D)` on the previous right-hand side (so `thomas` is called `T`
times), `F` and `D` have length `N-1` after every step, and the value returned is the
element of index `N-2` of the grid vector of the last step; for `T = 0` it is the seeded
value `payoff(spot)`. -/
theorem get_price_total (self : fdm K) (exp : K → K) (p : pde K) (opt : interface K)
    (payoff : K → K) (sb : Space_boundaries K) (tb : Time_boundaries K)
    (hN : 3 ≤ sb.space_mesh self.m_dx opt) :
    ∃ st0 tr st, get_price_init self exp p opt payoff sb tb = some st0 ∧
      march_trace self p (sb.space_mesh self.m_dx opt) (tb.time_mesh self.m_dt opt) st0 =
        some tr ∧
      tr.length = tb.time_mesh self.m_dt opt ∧
      List.Chain (fun a b => thomas b.m.B1 b.m.B2 b.m.B3 a.D = some b.F) st0 tr ∧
      (∀ s, s ∈ tr → s.F.length = sb.space_mesh self.m_dx opt - 1 ∧
        s.D.length = sb.space_mesh self.m_dx opt - 1) ∧
      get_price_march self exp p opt payoff sb tb = some st ∧
      st = tr.getLast?.getD st0 ∧
      get_price self exp p opt payoff sb tb =
        some (st.F.getD (sb.space_mesh self.m_dx opt - 2) 0) ∧
      (tb.time_mesh self.m_dt opt = 0 →
        get_price self exp p opt payoff sb tb = some (payoff opt.spot)) :=
  get_price_run_spec self exp p opt payoff sb tb hN

theorem get_price_total_witness :
    ∃ st0 tr st,
      get_price_init (⟨fun _ _ => 0, 2, 0, 1, 1, 1 / 2⟩ : fdm ℝ) Real.exp ⟨1 / 2, 0⟩
        ⟨1, 0, 1, 0⟩ (fun x => x) ⟨fun _ _ => 3, fun _ _ _ => 0⟩
        ⟨fun _ _ => 1, fun x => x, fun _ => 0⟩ = some st0 ∧
      march_trace (⟨fun _ _ => 0, 2, 0, 1, 1, 1 / 2⟩ : fdm ℝ) ⟨1 / 2, 0⟩ 3 1 st0 = some tr ∧
      tr.length = 1 ∧ st = tr.getLast?.getD st0 ∧
      get_price (⟨fun _ _ => 0, 2, 0, 1, 1, 1 / 2⟩ : fdm ℝ) Real.exp ⟨1 / 2, 0⟩
        ⟨1, 0, 1, 0⟩ (fun x => x) ⟨fun _ _ => 3, fun _ _ _ => 0⟩
        ⟨fun _ _ => 1, fun x => x, fun _ => 0⟩ = some (st.F.getD 1 0) := by
  obtain ⟨st0, tr, st, h0, htr, hlen, -, -, -, hst, hg, -⟩ :=
    get_price_total (⟨fun _ _ => 0, 2, 0, 1, 1, 1 / 2⟩ : fdm ℝ) Real.exp ⟨1 / 2, 0⟩
      ⟨1, 0, 1, 0⟩ (fun x => x) ⟨fun _ _ => 3, fun _ _ _ => 0⟩
      ⟨fun _ _ => 1, fun x => x, fun _ => 0⟩ (Nat.le_refl 3)
  exact ⟨st0, tr, st, h0, htr, hlen, hst, hg⟩

/-! ## The coefficient calculator: further claims -/

/-- C19: the stencil rows sum to values that do not depend on `alpha` and `beta`:
`a1 + a2 + a3 = 1 - (1-theta)·dt·r` and `b1 + b2 + b3 = 1 + theta·dt·r` with
`r = rate(s,t)`, for all coefficients, `dt`, `dx` and `theta`; with `r = 0` both sums
are `1`. -/
theorem stencil_row_sums (self : fdm K) (p : pde K) (s t : K) :
    a1 self p s t + a2 self p s t + a3 self p s t =
      1 - (1 - self.m_theta) * self.m_dt * self.m_r s t ∧
    b1 self p s t + b2 self p s t + b3 self p s t =
      1 + self.m_theta * self.m_dt * self.m_r s t ∧
    (self.m_r s t = 0 →
      a1 self p s t + a2 self p s t + a3 self p s t = 1 ∧
      b1 self p s t + b2 self p s t + b3 self p s t = 1) := by
  have ha : a1 self p s t + a2 self p s t + a3 self p s t =
      1 - (1 - self.m_theta) * self.m_dt * self.m_r s t := by
    simp only [a1, a2, a3]
    ring
  have hb : b1 self p s t + b2 self p s t + b3 self p s t =
      1 + self.m_theta * self.m_dt * self.m_r s t := by
    simp only [b1, b2, b3]
    ring
  refine ⟨ha, hb, fun hr => ?_⟩
  rw [ha, hb, hr]
  simp

theorem stencil_row_sums_witness :
    (⟨fun _ _ => 0, 0, 0, 1, 1, 1 / 2⟩ : fdm ℝ).m_r 3 4 = 0 ∧
    a1 (⟨fun _ _ => 0, 0, 0, 1, 1, 1 / 2⟩ : fdm ℝ) ⟨1 / 2, 1⟩ 3 4 +
      a2 (⟨fun _ _ => 0, 0, 0, 1, 1, 1 / 2⟩ : fdm ℝ) ⟨1 / 2, 1⟩ 3 4 +
      a3 (⟨fun _ _ => 0, 0, 0, 1, 1, 1 / 2⟩ : fdm ℝ) ⟨1 / 2, 1⟩ 3 4 = 1 :=
  ⟨rfl, ((stencil_row_sums (⟨fun _ _ => 0, 0, 0, 1, 1, 1 / 2⟩ : fdm ℝ) ⟨1 / 2, 1⟩ 3 4).2.2
    rfl).1⟩

/-! ## The fully explicit scheme -/

theorem cprime_identity (a b c : List K) (n : Nat)
    (hc : ∀ j, j < n → c.getD j 0 = 0) : ∀ j, j < n → cprime a b c j = 0 := by
  intro j hj
  cases j with
  | zero => simp only [cprime, hc 0 hj, zero_div]
  | succ j => simp only [cprime, hc (j + 1) hj, zero_div]

theorem dprime_identity (a b c d : List K) (n : Nat)
    (ha : ∀ j, j < n → a.getD j 0 = 0) (hb : ∀ j, j < n → b.getD j 0 = 1) :
    ∀ j, j < n → dprime a b c d j = d.getD j 0 := by
  intro j hj
  cases j with
  | zero => simp only [dprime, hb 0 hj, div_one]
  | succ j => simp only [dprime, ha (j + 1) hj, hb (j + 1) hj, zero_mul, sub_zero, div_one]

theorem yback_identity (dp : Nat → K) (n : Nat) :
    ∀ m, m < n → yback (fun _ => 0) dp n m = dp (n - 1 - m) := by
  intro m hm
  cases m with
  | zero => rfl
  | succ m =>
    have e : n - 2 - m = n - 1 - (m + 1) := by omega
    simp only [yback, zero_mul, sub_zero, e]

/-- With a zero sub-diagonal, a unit diagonal and a zero super-diagonal the closed form of
`thomas` is the right-hand side. -/
theorem thomas_sol_identity (a b c d : List K)
    (ha : ∀ j, j < d.length → a.getD j 0 = 0) (hb : ∀ j, j < d.length → b.getD j 0 = 1)
    (hc : ∀ j, j < d.length → c.getD j 0 = 0) : thomas_sol a b c d = d := by
  apply list_eq_of_getD _ _ d.length (length_thomas_sol a b c d) rfl
  intro j hj
  rw [getD_thomas_sol a b c d j hj,
    yback_congr _ _ (fun _ => 0) (fun i => d.getD i 0) d.length
      (fun i hi => cprime_identity a b c d.length hc i (by omega))
      (fun i hi => dprime_identity a b c d d.length ha hb i hi) _ (by omega),
    yback_identity _ _ _ (by omega)]
  have e : d.length - 1 - (d.length - 1 - j) = j := by omega
  rw [e]

theorem getD_replicate_lt (n j : Nat) (x : K) (hj : j < n) :
    (List.replicate n x).getD j 0 = x := by
  simp [List.getD, List.getElem?_replicate, hj]

/-- C18: for `theta = 0` the implicit-side coefficients are `B1 = 0`, `B2 = 1`, `B3 = 0`
at every mesh point and time; `thomas` applied to constant vectors `0, 1, 0` of length
`n ≥ 1` returns its right-hand side `D` unchanged; and every time step of the march
(`N ≥ 3`, working vectors of length `N-1`) returns a state whose grid vector `F` is the
right-hand side `D` it started from. -/
theorem explicit_scheme_identity (self : fdm K) (hth : self.m_theta = 0) :
    (∀ (p : pde K) (s t : K), b1 self p s t = 0 ∧ b2 self p s t = 1 ∧ b3 self p s t = 0) ∧
    (∀ (n : Nat) (D : List K), 1 ≤ n → D.length = n →
      thomas (List.replicate n 0) (List.replicate n 1) (List.replicate n 0) D = some D) ∧
    (∀ (p : pde K) (N : Nat) (t : K) (st : march_state K), 3 ≤ N → march_inv N st →
      ∃ st1, time_step self p N t st = some st1 ∧ st1.F = st.D) := by
  have hb : ∀ (p : pde K) (s t : K),
      b1 self p s t = 0 ∧ b2 self p s t = 1 ∧ b3 self p s t = 0 := by
    intro p s t
    simp [b1, b2, b3, hth]
  refine ⟨hb, ?_, ?_⟩
  · intro n D hn hD
    subst hD
    rw [thomas_eq _ _ _ D hn (by simp) (by simp) (by simp),
      thomas_sol_identity _ _ _ D (fun j hj => getD_replicate_lt _ j 0 hj)
        (fun j hj => getD_replicate_lt _ j 1 hj) (fun j hj => getD_replicate_lt _ j 0 hj)]
  · intro p N t st hN hst
    obtain ⟨st1, h1, -, -, -, hfill, hF, -⟩ := time_step_spec self p N t st hN hst
    refine ⟨st1, h1, ?_⟩
    have hlen : st.D.length = N - 1 := hst.2.2.2
    rw [hF]
    apply thomas_sol_identity
    · intro j hj
      rw [(hfill.2 j (by omega)).2.2.2.1]
      exact (hb p _ t).1
    · intro j hj
      rw [(hfill.2 j (by omega)).2.2.2.2.1]
      exact (hb p _ t).2.1
    · intro j hj
      rw [(hfill.2 j (by omega)).2.2.2.2.2]
      exact (hb p _ t).2.2

theorem explicit_scheme_identity_witness :
    (⟨fun s _ => s, 0, 0, 1, 1, 0⟩ : fdm ℝ).m_theta = 0 ∧
    b2 (⟨fun s _ => s, 0, 0, 1, 1, 0⟩ : fdm ℝ) ⟨1 / 2, 0⟩ 3 4 = 1 ∧
    thomas ([0, 0] : List ℝ) [1, 1] [0, 0] [5, 7] = some [5, 7] :=
  ⟨rfl,
    ((explicit_scheme_identity (⟨fun s _ => s, 0, 0, 1, 1, 0⟩ : fdm ℝ) rfl).1
      ⟨1 / 2, 0⟩ 3 4).2.1,
    (explicit_scheme_identity (⟨fun s _ => s, 0, 0, 1, 1, 0⟩ : fdm ℝ) rfl).2.1 2 [5, 7]
      (by decide) rfl⟩

/-! ## Finite-difference quotients -/

theorem dec_2e2 : (0.02 : K) = 1 / 50 := by
  have h : ((0.02 : ℚ) : K) = (0.02 : K) := by norm_cast
  have h2 : (0.02 : ℚ) = 1 / 50 := by norm_num
  rw [← h, h2, Rat.cast_def]
  norm_num

theorem dec_double : (2 * 0.01 : K) = 0.02 := by
  rw [dec_1e2, dec_2e2]
  have h100 : (100 : K) = 2 * 50 := by norm_num
  by_cases h2 : (2 : K) = 0
  · have h50 : (50 : K) = 0 := by
      have : (50 : K) = 2 * 25 := by norm_num
      rw [this, h2, zero_mul]
    rw [h2, h50]
    simp
  · rw [h100, one_div, one_div, mul_inv, ← mul_assoc, mul_inv_cancel₀ h2, one_mul]

/-- C17: the finite-difference quotients are unchanged when the bump `h` is replaced by
`-h`, for every pricer `p`, point `x` and bump `h` (the nonzero ones in particular): this
holds for the first-order quotient `(p(x+h) - p(x-h)) / (2h)` of delta and vega and for
the second-order quotient `(p(x+h) - 2·p(x) + p(x-h)) / h²` of gamma.  The code uses them
at the bump `h = 0.01`: whenever `p` gives the price of every spot-bumped (resp.
volatility-bumped) copy of the live descriptor `o`, `get_delta` and `get_vega` return the
first-order quotient and `get_gamma` the second-order quotient of `p` at `0.01`. -/
theorem estimates_sign_symmetric (p : K → K) (x h : K) (self : fdm K) (exp : K → K)
    (bs_pde : interface K → pde K) (hp : heap K) (t_pde : pde K) (opt : Nat)
    (payoff : K → K) (sb : Space_boundaries K) (tb : Time_boundaries K) (o : interface K) :
    central_difference p x (-h) = central_difference p x h ∧
    second_difference p x (-h) = second_difference p x h ∧
    (heap_get hp opt = some o →
      (∀ s, get_price self exp (bs_pde ⟨s, o.vol, o.maturity, o.rate⟩)
        ⟨s, o.vol, o.maturity, o.rate⟩ payoff sb tb = some (p s)) →
      (get_delta self exp bs_pde hp t_pde opt payoff sb tb).map Prod.fst =
        some (central_difference p o.spot 0.01) ∧
      (get_price self exp t_pde o payoff sb tb = some (p o.spot) →
        (get_gamma self exp bs_pde hp t_pde opt payoff sb tb).map Prod.fst =
          some (second_difference p o.spot 0.01))) ∧
    (heap_get hp opt = some o →
      (∀ v, get_price self exp (bs_pde ⟨o.spot, v, o.maturity, o.rate⟩)
        ⟨o.spot, v, o.maturity, o.rate⟩ payoff sb tb = some (p v)) →
      (get_vega self exp bs_pde hp t_pde opt payoff sb tb).map Prod.fst =
        some (central_difference p o.vol 0.01)) := by
  refine ⟨?_, ?_, ?_, ?_⟩
  · simp only [central_difference, sub_neg_eq_add, ← sub_eq_add_neg, mul_neg, div_neg]
    rw [← neg_div, neg_sub]
  · simp only [second_difference, sub_neg_eq_add, ← sub_eq_add_neg, neg_mul_neg]
    congr 1
    ring
  · intro ho hprice
    constructor
    · rw [get_delta_eq self exp bs_pde hp t_pde opt payoff sb tb o ho, hprice, hprice]
      simp only [Option.some_bind, Option.map_some', central_difference, dec_double]
    · intro hc
      rw [get_gamma_eq self exp bs_pde hp t_pde opt payoff sb tb o ho, hc, hprice, hprice]
      simp only [Option.some_bind, Option.map_some', second_difference]
  · intro ho hprice
    rw [get_vega_eq self exp bs_pde hp t_pde opt payoff sb tb o ho, hprice, hprice]
    simp only [Option.some_bind, Option.map_some', central_difference, dec_double]

theorem estimates_sign_symmetric_witness :
    heap_get ([some ⟨1, 0, 1, 0⟩] : heap ℝ) 0 = some ⟨1, 0, 1, 0⟩ ∧
    (get_delta (⟨fun _ _ => 0, 0, 0, 1, 1, 1 / 2⟩ : fdm ℝ) Real.exp (fun o => ⟨o.vol, o.rate⟩)
      [some ⟨1, 0, 1, 0⟩] ⟨0, 0⟩ 0 (fun x => x) ⟨fun _ _ => 3, fun _ _ _ => 0⟩
      ⟨fun _ _ => 0, fun x => x, fun _ => 0⟩).map Prod.fst =
        some (central_difference (fun s => s) 1 0.01) ∧
    central_difference (fun s : ℝ => s) 1 (-0.01) = central_difference (fun s => s) 1 0.01 :=
  ⟨rfl,
    ((estimates_sign_symmetric (fun s => s) 1 0.01
      (⟨fun _ _ => 0, 0, 0, 1, 1, 1 / 2⟩ : fdm ℝ) Real.exp (fun o => ⟨o.vol, o.rate⟩)
      [some ⟨1, 0, 1, 0⟩] ⟨0, 0⟩ 0 (fun x => x) ⟨fun _ _ => 3, fun _ _ _ => 0⟩
      ⟨fun _ _ => 0, fun x => x, fun _ => 0⟩ ⟨1, 0, 1, 0⟩).2.2.1 rfl
      (fun _ => get_price_three_zero _ _ _ _ _ _ _ rfl rfl)).1,
    (estimates_sign_symmetric (fun s => s) 1 0.01
      (⟨fun _ _ => 0, 0, 0, 1, 1, 1 / 2⟩ : fdm ℝ) Real.exp (fun o => ⟨o.vol, o.rate⟩)
      [some ⟨1, 0, 1, 0⟩] ⟨0, 0⟩ 0 (fun x => x) ⟨fun _ _ => 3, fun _ _ _ => 0⟩
      ⟨fun _ _ => 0, fun x => x, fun _ => 0⟩ ⟨1, 0, 1, 0⟩).1⟩

/-! ## Degenerate meshes -/

/-- The price returned for `N = 3` and `T = 1`, symbolically. -/
theorem get_price_three_one (self : fdm K) (exp : K → K) (p : pde K) (opt : interface K)
    (payoff : K → K) (sb : Space_boundaries K) (tb : Time_boundaries K)
    (hN : sb.space_mesh self.m_dx opt = 3) (hT : tb.time_mesh self.m_dt opt = 1) :
    let s0 := exp (sb.s_boundary_right opt.spot opt.vol opt.maturity)
    let s1 := s0 - self.m_dx
    let e := exp (-opt.rate * self.m_dt)
    let C0 := (a1 self p s0 opt.maturity - b1 self p s0 opt.maturity * e) * self.m_f0
    let C1 := (a3 self p s1 opt.maturity - b3 self p s1 opt.maturity * e) * self.m_fN
    let f := payoff opt.spot
    let D0 := a2 self p s0 opt.maturity * f + a3 self p s0 opt.maturity * f + C0
    let D1 := a1 self p s1 opt.maturity * f + a2 self p s1 opt.maturity * f + C1
    let t : K := ((0 : ℕ) : K)
    get_price self exp p opt payoff sb tb = some
      ((D1 - b1 self p s1 t * (D0 / b2 self p s0 t)) /
        (b2 self p s1 t - b1 self p s1 t * (b3 self p s0 t / b2 self p s0 t))) := by
  simp only [get_price, get_price_march, get_price_init, hN, hT]
  rfl

theorem get_price_small_mesh (self : fdm K) (exp : K → K) (p : pde K) (opt : interface K)
    (payoff : K → K) (sb : Space_boundaries K) (tb : Time_boundaries K)
    (hN : sb.space_mesh self.m_dx opt = 0 ∨ sb.space_mesh self.m_dx opt = 1) :
    get_price_init self exp p opt payoff sb tb = none ∧
      get_price self exp p opt payoff sb tb = none := by
  have h : get_price_init self exp p opt payoff sb tb = none := by
    rcases hN with hN | hN
    · simp only [get_price_init, hN]
      rfl
    · simp only [get_price_init, hN]
      rfl
  refine ⟨h, ?_⟩
  simp only [get_price, get_price_march, h]
  rfl

/-- C16, at two degenerate meshes: with `T = 0` (`N = 3`, `dx = dt = 1`) no time step is
marched and `get_price` returns the numeric price `payoff(spot) = 1`; with `dx = -1` and
`dt = -1` (`N = 3`, `T = 1`, `theta = 0`) it marches and returns the numeric price `1`.
Neither configuration is rejected. -/
theorem degenerate_mesh_priced :
    get_price (⟨fun _ _ => 0, 0, 0, 1, 1, 1 / 2⟩ : fdm ℝ) Real.exp ⟨1 / 2, 0⟩
      ⟨1, 0, 1, 0⟩ (fun x => x) ⟨fun _ _ => 3, fun _ _ _ => 0⟩
      ⟨fun _ _ => 0, fun x => x, fun _ => 0⟩ = some 1 ∧
    get_price (⟨fun _ _ => 0, 0, 0, -1, -1, 0⟩ : fdm ℝ) Real.exp ⟨0, 0⟩
      ⟨1, 0, 1, 0⟩ (fun x => x) ⟨fun _ _ => 3, fun _ _ _ => 0⟩
      ⟨fun _ _ => 1, fun x => x, fun _ => 0⟩ = some 1 := by
  refine ⟨get_price_three_zero _ _ _ _ _ _ _ rfl rfl, ?_⟩
  rw [get_price_three_one (⟨fun _ _ => 0, 0, 0, -1, -1, 0⟩ : fdm ℝ) Real.exp ⟨0, 0⟩
    ⟨1, 0, 1, 0⟩ (fun x => x) ⟨fun _ _ => 3, fun _ _ _ => 0⟩
    ⟨fun _ _ => 1, fun x => x, fun _ => 0⟩ rfl rfl]
  norm_num [a1, a2, a3, b1, b2, b3]

/-- C16 as amended: for a price query with `N = 0`, `get_price` fails before the time
loop is reached (the vectors of size `N-1` cannot be built) and returns no numeric price.
A query with `T = 0` is not rejected: for `N ≥ 3` and `T = 0`, whatever `dx` and `dt` are
(zero and negative values included), the state on entry to the time loop is built, the
time loop of `get_price` leaves it unchanged (no time step is marched), and `get_price`
returns the seeded value `payoff(spot)`. -/
theorem get_price_no_validation (self : fdm K) (exp : K → K) (p : pde K) (opt : interface K)
    (payoff : K → K) (sb : Space_boundaries K) (tb : Time_boundaries K) :
    (sb.space_mesh self.m_dx opt = 0 →
      get_price_init self exp p opt payoff sb tb = none ∧
        get_price self exp p opt payoff sb tb = none) ∧
    (3 ≤ sb.space_mesh self.m_dx opt → tb.time_mesh self.m_dt opt = 0 →
      ∃ st0, get_price_init self exp p opt payoff sb tb = some st0 ∧
        time_loop self p (sb.space_mesh self.m_dx opt) (tb.time_mesh self.m_dt opt) st0 =
          some st0 ∧
        get_price_march self exp p opt payoff sb tb = some st0 ∧
        get_price self exp p opt payoff sb tb = some (payoff opt.spot)) := by
  refine ⟨fun hN => get_price_small_mesh self exp p opt payoff sb tb (Or.inl hN), ?_⟩
  intro hN hT
  obtain ⟨st0, -, -, hinit, -, -, -, -, -, -, -, h0⟩ :=
    get_price_run_spec self exp p opt payoff sb tb hN
  have hloop : time_loop self p (sb.space_mesh self.m_dx opt)
      (tb.time_mesh self.m_dt opt) st0 = some st0 := by
    rw [hT]
    rfl
  refine ⟨st0, hinit, hloop, ?_, h0 hT⟩
  simp only [get_price_march]
  rw [hinit]
  simp only [Option.bind_eq_bind, Option.some_bind]
  exact hloop

theorem get_price_no_validation_witness :
    get_price (⟨fun _ _ => 0, 0, 0, 1, 1, 1 / 2⟩ : fdm ℝ) Real.exp ⟨1 / 2, 0⟩
      ⟨1, 0, 1, 0⟩ (fun x => x) ⟨fun _ _ => 0, fun _ _ _ => 0⟩
      ⟨fun _ _ => 1, fun x => x, fun _ => 0⟩ = none ∧
    get_price (⟨fun _ _ => 0, 0, 0, -1, -1, 1 / 2⟩ : fdm ℝ) Real.exp ⟨1 / 2, 0⟩
      ⟨1, 0, 1, 0⟩ (fun x => x) ⟨fun _ _ => 3, fun _ _ _ => 0⟩
      ⟨fun _ _ => 0, fun x => x, fun _ => 0⟩ = some 1 := by
  refine ⟨((get_price_no_validation (⟨fun _ _ => 0, 0, 0, 1, 1, 1 / 2⟩ : fdm ℝ) Real.exp
      ⟨1 / 2, 0⟩ ⟨1, 0, 1, 0⟩ (fun x => x) ⟨fun _ _ => 0, fun _ _ _ => 0⟩
      ⟨fun _ _ => 1, fun x => x, fun _ => 0⟩).1 rfl).2, ?_⟩
  obtain ⟨st0, -, -, -, hg⟩ :=
    (get_price_no_validation (⟨fun _ _ => 0, 0, 0, -1, -1, 1 / 2⟩ : fdm ℝ) Real.exp
      ⟨1 / 2, 0⟩ ⟨1, 0, 1, 0⟩ (fun x => x) ⟨fun _ _ => 3, fun _ _ _ => 0⟩
      ⟨fun _ _ => 0, fun x => x, fun _ => 0⟩).2 (Nat.le_refl 3) rfl
  exact hg

end dauphine
